import Mathlib

/-!
Verification of the job scheduling and process-supervision core of the
BlenderBoltRender repository against its natural-language specification.

The repository contains several independent implementations of the same
queue/render core:
* `src/src/services/RenderQueue.ts` (class `RenderQueue`) driving
  `src/src/services/BlenderService.ts` (class `BlenderService`),
* `src/server/index.js` (class `RenderJobManager`, concurrency limit 2),
* `src/unnamed/part_001` (the Electron main process: `renderJobs`,
  `renderQueue`, `processNextJob`, ipc handlers).

Each TypeScript/JavaScript function relevant to the claims is embedded
below as a pure Lean function or, for the stateful queue managers, as a
small-step transition relation over an explicit state type.  JavaScript
numbers are modelled as ℚ (with `Option` capturing the non-finite values
produced by division by zero), timestamps as ℕ, and process handles as a
Bool flag recording whether a live handle is attached.
-/

/-! ## Generic list helpers

`updateFirst p f l` replaces the first element of `l` satisfying `p` by its
`f`-image; it models the JavaScript idiom `const x = list.find(p); mutate(x)`
(the mutation is visible through the list exactly at the found position).
-/

def updateFirst {α : Type} (p : α → Bool) (f : α → α) : List α → List α
  | [] => []
  | x :: xs => if p x then f x :: xs else x :: updateFirst p f xs

theorem updateFirst_of_find?_eq_none {α : Type} (p : α → Bool) (f : α → α) :
    ∀ l : List α, l.find? p = none → updateFirst p f l = l := by
  intro l h
  induction l with
  | nil => rfl
  | cons x xs ih =>
    rw [List.find?_cons] at h
    cases hx : p x with
    | true => simp [hx] at h
    | false =>
      simp only [hx] at h
      simp [updateFirst, hx, ih h]

theorem find?_eq_some_split {α : Type} (p : α → Bool) (f : α → α) :
    ∀ l : List α, ∀ x, l.find? p = some x →
      ∃ l₁ l₂, l = l₁ ++ x :: l₂ ∧ (∀ y ∈ l₁, p y = false) ∧
        updateFirst p f l = l₁ ++ f x :: l₂ := by
  intro l
  induction l with
  | nil => intro x h; simp [List.find?] at h
  | cons a as ih =>
    intro x h
    rw [List.find?_cons] at h
    cases ha : p a with
    | true =>
      simp only [ha] at h
      obtain rfl : a = x := by injection h
      exact ⟨[], as, by simp [updateFirst, ha]⟩
    | false =>
      simp only [ha] at h
      obtain ⟨l₁, l₂, hsplit, hfalse, hupd⟩ := ih x h
      refine ⟨a :: l₁, l₂, by simp [hsplit], ?_, ?_⟩
      · intro y hy
        rcases List.mem_cons.mp hy with rfl | hy
        · exact ha
        · exact hfalse y hy
      · simp [updateFirst, ha, hupd]

theorem map_updateFirst {α β : Type} (p : α → Bool) (f : α → α) (g : α → β)
    (hf : ∀ x, g (f x) = g x) : ∀ l : List α, (updateFirst p f l).map g = l.map g := by
  intro l
  induction l with
  | nil => rfl
  | cons x xs ih =>
    by_cases hx : p x
    · simp [updateFirst, hx, hf]
    · simp [updateFirst, hx, ih]

theorem length_updateFirst {α : Type} (p : α → Bool) (f : α → α) :
    ∀ l : List α, (updateFirst p f l).length = l.length := by
  intro l
  induction l with
  | nil => rfl
  | cons x xs ih =>
    by_cases hx : p x
    · simp [updateFirst, hx]
    · simp [updateFirst, hx, ih]

/-- Adjacent swap at position `n`, modelling
`[q[n], q[n+1]] = [q[n+1], q[n]]` from `moveItemUp`/`moveItemDown`. -/
def swapAdj {α : Type} : ℕ → List α → List α
  | 0, a :: b :: t => b :: a :: t
  | n + 1, a :: t => a :: swapAdj n t
  | _, l => l

theorem swapAdj_perm {α : Type} : ∀ (n : ℕ) (l : List α), List.Perm (swapAdj n l) l := by
  intro n
  induction n with
  | zero =>
    intro l
    match l with
    | [] => rfl
    | [a] => rfl
    | a :: b :: t => exact List.Perm.swap a b t
  | succ n ih =>
    intro l
    match l with
    | [] => rfl
    | a :: t => exact List.Perm.cons a (ih t)

/-! ## Scanning the engine's stdout text

`leadsWith pat s` is `true` when `pat` occurs at the start of `s`;
`containsPat pat s` is the substring test used for the literal markers
`Saved:`, `Error:`, `EXCEPTION` (JavaScript `String.prototype.includes`);
`scanNumAfter pat s` models the regex `/pat(\d+)/` followed by `parseInt`
on the captured digits: it finds the leftmost position where `pat` is
immediately followed by at least one digit and returns the value of the
maximal digit run there. -/

def leadsWith : List Char → List Char → Bool
  | [], _ => true
  | _ :: _, [] => false
  | a :: as, b :: bs => a == b && leadsWith as bs

def containsPat (pat : List Char) : List Char → Bool
  | [] => leadsWith pat []
  | c :: rest => leadsWith pat (c :: rest) || containsPat pat rest

def digitsVal (ds : List Char) : ℕ :=
  ds.foldl (fun n c => 10 * n + (c.toNat - ('0' : Char).toNat)) 0

def scanNumAfter (pat : List Char) : List Char → Option ℕ
  | [] => none
  | c :: rest =>
    if leadsWith pat (c :: rest) then
      let ds := ((c :: rest).drop pat.length).takeWhile Char.isDigit
      if ds.isEmpty then scanNumAfter pat rest else some (digitsVal ds)
    else scanNumAfter pat rest

theorem containsPat_append_right (pat l : List Char) :
    containsPat pat (l ++ pat) = true := by
  induction l with
  | nil =>
    have h : leadsWith pat pat = true := by
      induction pat with
      | nil => rfl
      | cons a as ih => simp [leadsWith, ih]
    cases pat with
    | nil => simpa [containsPat] using h
    | cons a as => simp [containsPat]; left; simpa using h
  | cons c cs ih =>
    simp only [List.cons_append, containsPat, List.append_eq]
    rw [ih]
    simp

/-! ## JavaScript arithmetic

`jsRound` is `Math.round` on a finite value: round half toward positive
infinity.  `jsDiv a b` is JavaScript division where `b = 0` produces a
non-finite value (`Infinity` or `NaN`), modelled as `none`. -/

def jsRound (q : ℚ) : ℤ := ⌊q + 1 / 2⌋

def jsDiv (a b : ℚ) : Option ℚ := if b = 0 then none else some (a / b)

/-! ## BlenderService (`src/src/services/BlenderService.ts`)

`RenderProgress` embeds the interface of the same name (lines 20-28); the
advisory `timeRemaining` and `currentFile` fields are not modelled because
no claim mentions them.  `parseBlenderOutput` embeds the private method of
the same name (lines 335-383).  Note that the method also matches
`/(\d+)%/` into a local `percentage` variable which is dead code: the
callback at line 377 recomputes the percentage from the frame counter, so
the percent marker is not modelled. -/

inductive PStatus : Type
  | rendering
  | completed
  | error
  | cancelled
  deriving DecidableEq

structure RenderProgress : Type where
  frame : ℤ
  totalFrames : ℤ
  percentage : Option ℚ
  status : PStatus
  message : String
  deriving DecidableEq

def fraPat : List Char := "Fra:".toList

def savedPat : List Char := "Saved:".toList

def errorPat : List Char := "Error:".toList

def exceptionPat : List Char := "EXCEPTION".toList

/-- The body of `BlenderService.parseBlenderOutput` (lines 335-383) as a
pure function of the output chunk and the context (`currentFrame`,
`totalFrames`) captured by the enclosing `renderFile` call.  Line 377
computes `Math.round((currentFrame / totalFrames) * 100)`; division by a
zero `totalFrames` yields a non-finite number, modelled as `none`. -/
def parseBlenderOutput (output : String) (currentFrame : ℤ) (totalFrames : ℤ) :
    RenderProgress :=
  let cf : ℤ :=
    match scanNumAfter fraPat output.toList with
    | some n => (n : ℤ)
    | none => currentFrame
  let status : PStatus :=
    if containsPat savedPat output.toList then .completed
    else if containsPat errorPat output.toList || containsPat exceptionPat output.toList then
      .error
    else .rendering
  let message : String :=
    if containsPat savedPat output.toList then "Frame rendered successfully"
    else if containsPat errorPat output.toList || containsPat exceptionPat output.toList then
      "Render error occurred"
    else ""
  { frame := cf
    totalFrames := totalFrames
    percentage := (jsDiv (cf : ℚ) (totalFrames : ℚ)).map fun q => ((jsRound (q * 100) : ℤ) : ℚ)
    status := status
    message := message }

/-- The progress update emitted by the `close` handler of
`BlenderService.renderFile` when the process exits with code 0
(lines 201-211). -/
def blenderCloseOk (blendTotalFrames : ℤ) : RenderProgress :=
  { frame := blendTotalFrames
    totalFrames := blendTotalFrames
    percentage := some 100
    status := .completed
    message := "Render completed successfully" }

/-- The rejection message of `BlenderService.renderFile` for a nonzero exit
code (line 237): the exit code together with the accumulated stderr. -/
def blenderFailMsg (code : ℤ) (errorOutput : String) : String :=
  "Blender process failed with code " ++ toString code ++ ": " ++ errorOutput

/-! ## RenderQueue (`src/src/services/RenderQueue.ts`)

`QueueItem` embeds the interface at lines 4-16 (the immutable
`options` payload is kept opaque as a `BlenderRenderOptions` snapshot). -/

inductive QStatus : Type
  | pending
  | rendering
  | completed
  | error
  | cancelled
  deriving DecidableEq

structure BlenderRenderOptions : Type where
  blendFile : String
  outputPath : String
  startFrame : Option ℤ
  endFrame : Option ℤ
  engine : Option String
  samples : Option ℕ
  gpu : Bool
  deriving DecidableEq

structure QueueItem : Type where
  id : String
  blendFile : String
  outputPath : String
  options : BlenderRenderOptions
  status : QStatus
  progress : Option ℚ
  startTime : Option ℕ
  endTime : Option ℕ
  error : Option String
  currentFrame : Option ℤ
  totalFrames : Option ℤ
  deriving DecidableEq

/-- The item constructed by `RenderQueue.addToQueue` (lines 31-37): caller
payload plus a generated id, status `pending`, progress 0. -/
def mkPending (id blendFile outputPath : String) (options : BlenderRenderOptions) :
    QueueItem :=
  { id := id
    blendFile := blendFile
    outputPath := outputPath
    options := options
    status := .pending
    progress := some 0
    startTime := none
    endTime := none
    error := none
    currentFrame := none
    totalFrames := none }

/-- The `onProgress` callback installed by `RenderQueue.processQueue`
(lines 173-192): always overwrites the progress fields, then switches the
status on `progress.status` (`error`, `cancelled`, `completed`; a
`rendering` update leaves the status unchanged). -/
def applyProgress (p : RenderProgress) (now : ℕ) (item : QueueItem) : QueueItem :=
  let it := { item with
    progress := p.percentage
    currentFrame := some p.frame
    totalFrames := some p.totalFrames }
  match p.status with
  | .error => { it with status := .error, error := some p.message, endTime := some now }
  | .cancelled => { it with status := .cancelled, endTime := some now }
  | .completed =>
      { it with status := .completed, progress := some 100, endTime := some now }
  | .rendering => it

/-- The `catch` branch of `RenderQueue.processQueue` (lines 201-205):
unconditionally marks the item failed with the rejection message. -/
def applyCatch (msg : String) (now : ℕ) (item : QueueItem) : QueueItem :=
  { item with status := .error, error := some msg, endTime := some now }

/-- Lines 195-199 of `RenderQueue.processQueue`: after `renderFile`
resolves, an item still marked `rendering` is forced to `completed`. -/
def applyResolve (now : ℕ) (item : QueueItem) : QueueItem :=
  if item.status = .rendering then
    { item with status := .completed, progress := some 100, endTime := some now }
  else item

/-- Lines 162-165 of `RenderQueue.processQueue`: the admitted item is
marked `rendering` with its start time recorded and progress reset. -/
def markRendering (now : ℕ) (item : QueueItem) : QueueItem :=
  { item with status := .rendering, startTime := some now, progress := some 0 }

/-- Method `RenderQueue.retryItem` (lines 256-274): valid only from `error` or
`cancelled`; resets status, progress, error and both timestamps. -/
def retryItem (id : String) (q : List QueueItem) : Bool × List QueueItem :=
  match q.find? (fun i => i.id == id) with
  | none => (false, q)
  | some item =>
    if item.status = .error ∨ item.status = .cancelled then
      (true, updateFirst (fun i => i.id == id)
        (fun i => { i with
          status := .pending
          progress := some 0
          error := none
          startTime := none
          endTime := none }) q)
    else (false, q)

/-- Method `RenderQueue.moveItemUp` (lines 238-245). -/
def moveItemUp (id : String) (q : List QueueItem) : Bool × List QueueItem :=
  match q.findIdx? (fun i => i.id == id) with
  | none => (false, q)
  | some 0 => (false, q)
  | some (n + 1) => (true, swapAdj n q)

/-- Method `RenderQueue.moveItemDown` (lines 247-254). -/
def moveItemDown (id : String) (q : List QueueItem) : Bool × List QueueItem :=
  match q.findIdx? (fun i => i.id == id) with
  | none => (false, q)
  | some n => if q.length - 1 ≤ n then (false, q) else (true, swapAdj n q)

/-- Method `RenderQueue.removeFromQueue` (lines 49-63) restricted to its effect on
the queue order: splice out the first item with the given id (the
side-effecting cancel of a rendering item does not change any status). -/
def removeFromQueue (id : String) (q : List QueueItem) : Bool × List QueueItem :=
  match q.find? (fun i => i.id == id) with
  | none => (false, q)
  | some _ => (true, q.eraseP (fun i => i.id == id))

/-- The per-status counters of `RenderQueue.getQueueStats` (lines 110-129). -/
structure QueueStats : Type where
  total : ℕ
  pending : ℕ
  rendering : ℕ
  completed : ℕ
  failed : ℕ
  cancelled : ℕ
  deriving DecidableEq

def getQueueStats (q : List QueueItem) : QueueStats :=
  { total := q.length
    pending := (q.filter fun i => i.status == .pending).length
    rendering := (q.filter fun i => i.status == .rendering).length
    completed := (q.filter fun i => i.status == .completed).length
    failed := (q.filter fun i => i.status == .error).length
    cancelled := (q.filter fun i => i.status == .cancelled).length }

def countRendering (q : List QueueItem) : ℕ :=
  (q.filter fun i => i.status == .rendering).length

/-! ## Electron main process variant (`src/unnamed/part_001`)

`RenderJob` embeds the interface at lines 30-42; the `process` handle is
modelled as a Bool recording whether a live `ChildProcess` is attached. -/

inductive RStatus : Type
  | pending
  | running
  | completed
  | failed
  | cancelled
  deriving DecidableEq

structure RenderJob : Type where
  id : String
  blendFile : String
  outputPath : String
  startFrame : ℤ
  endFrame : ℤ
  status : RStatus
  progress : Option ℚ
  process : Bool
  createdAt : ℕ
  completedAt : Option ℕ
  error : Option String
  deriving DecidableEq

/-- The stdout data handler installed by `processNextJob`
(part_001 lines 328-339): on a `Fra:` marker the progress becomes
`Math.round(((currentFrame - job.startFrame) / totalFrames) * 100)` with
`totalFrames = job.endFrame - job.startFrame + 1` (line 326); without a
marker nothing changes. -/
def part001Stdout (output : String) (job : RenderJob) : RenderJob :=
  match scanNumAfter fraPat output.toList with
  | none => job
  | some n =>
    let totalFrames : ℤ := job.endFrame - job.startFrame + 1
    { job with progress :=
        (jsDiv ((n : ℚ) - (job.startFrame : ℚ)) (totalFrames : ℚ)).map fun q =>
          ((jsRound (q * 100) : ℤ) : ℚ) }

/-- The close handler installed by `processNextJob` (part_001
lines 345-356).  `code` is `null` (`none`) when the process was killed by a
signal.  Exit code 0 unconditionally completes the job; any other exit
marks it failed unless it was already cancelled. -/
def part001Close (code : Option ℤ) (now : ℕ) (job : RenderJob) : RenderJob :=
  if code = some 0 then
    { job with
      status := .completed
      progress := some 100
      completedAt := some now
      process := false }
  else if job.status ≠ .cancelled then
    { job with
      status := .failed
      error := some ("Render process exited with code " ++
        (match code with | some c => toString c | none => "null"))
      process := false }
  else { job with process := false }

/-- The `cancel-job` ipc handler (part_001 lines 418-426): it only acts on
a job that is `running` with a live process; any other job — in particular
a `pending` one — is left untouched and stays in the queue. -/
def part001CancelJob (jobId : String) (jobs : List RenderJob) : List RenderJob :=
  match jobs.find? (fun j => j.id == jobId) with
  | some j =>
    if j.status = .running ∧ j.process then
      updateFirst (fun j' => j'.id == jobId)
        (fun j' => { j' with status := .cancelled, process := false }) jobs
    else jobs
  | none => jobs

/-! ## Server variant (`src/server/index.js`, class `RenderJobManager`)

State: the `jobs` map (modelled as a list in insertion order), the waiting
`queue` of job ids, and the `activeJobs` id set (modelled as a list).  The
concurrency limit is the field `maxConcurrentJobs = 2` (line 55). -/

inductive SStatus : Type
  | queued
  | rendering
  | completed
  | failed
  | cancelled
  deriving DecidableEq

structure SJob : Type where
  id : String
  status : SStatus
  progress : ℚ
  createdAt : ℕ
  startedAt : Option ℕ
  completedAt : Option ℕ
  error : Option String
  deriving DecidableEq

def maxConcurrentJobs : ℕ := 2

/-- The job record constructed by `RenderJobManager.addJob`
(lines 58-69). -/
def freshSJob (id : String) (now : ℕ) : SJob :=
  { id := id
    status := .queued
    progress := 0
    createdAt := now
    startedAt := none
    completedAt := none
    error := none }

structure SrvState : Type where
  jobs : List SJob
  queue : List String
  active : List String
  deriving DecidableEq

def srvInit : SrvState := { jobs := [], queue := [], active := [] }

/-- Method `RenderJobManager.cancelJob` (lines 207-219): a `queued` job is marked
`cancelled` and spliced out of the queue; anything else returns `false`
with no state change. -/
def srvCancelJob (id : String) (s : SrvState) : Bool × SrvState :=
  match s.jobs.find? (fun j => j.id == id) with
  | some j =>
    if j.status = .queued then
      (true,
        { s with
          jobs := updateFirst (fun j' => j'.id == id)
            (fun j' => { j' with status := .cancelled }) s.jobs
          queue := s.queue.erase id })
    else (false, s)
  | none => (false, s)

/-! ## The RenderQueue event system

`processQueue` (lines 153-216) is an async method: its `while` loop is
suspended at each `await` and interleaves with every other entry point of
the class.  A suspended invocation is modelled as a `LoopPC` value:
`atLoop` is the resumption point at the `while` condition (line 158, also
reached after the inter-render delay at line 212), `awaiting id` is the
suspension inside `await blenderAPI.renderFile` for the item `id`
(line 171).  `stopQueue` and `clearQueue` reset `isProcessing` while such
an invocation may still be suspended, which lets a second invocation
start; the `allowStop` flag of `RQStep` switches those two entry points on
and off so that both the unrestricted behaviour and the stop-free
discipline can be stated. -/

inductive LoopPC : Type
  | atLoop
  | awaiting (id : String)
  deriving DecidableEq

structure RQState : Type where
  queue : List QueueItem
  isProcessing : Bool
  isPaused : Bool
  current : Option String
  loops : List LoopPC
  deriving DecidableEq

def rqInit : RQState :=
  { queue := [], isProcessing := false, isPaused := false, current := none, loops := [] }

/-- The mutation performed by `RenderQueue.stopQueue` (lines 89-104) on the
queue: the item referenced by `currentItem`, if any, is marked
`cancelled` with its end time set. -/
def stopQueueUpd (cur : Option String) (now : ℕ) (q : List QueueItem) : List QueueItem :=
  match cur with
  | none => q
  | some id => updateFirst (fun i => i.id == id)
      (fun i => { i with status := .cancelled, endTime := some now }) q

/-- One interleaving step of the `RenderQueue` event system.  Progress
callbacks (`progressEvt`) are allowed at any time for any id: the
`onProgress` closure of line 173 stays alive for as long as the underlying
process emits output, including after `stopQueue` has cancelled the item. -/
inductive RQStep (allowStop : Bool) : RQState → RQState → Prop where
  | submit (s : RQState) (bf op : String) (opts : BlenderRenderOptions) (id : String)
      (hfresh : ∀ i ∈ s.queue, i.id ≠ id) :
      RQStep allowStop s { s with queue := s.queue ++ [mkPending id bf op opts] }
  | enter (s : RQState) (hp : s.isProcessing = false) (hpause : s.isPaused = false) :
      RQStep allowStop s { s with isProcessing := true, loops := .atLoop :: s.loops }
  | launch (s : RQState) (pre post : List LoopPC) (item : QueueItem) (now : ℕ)
      (hl : s.loops = pre ++ .atLoop :: post) (hpause : s.isPaused = false)
      (hfind : s.queue.find? (fun i => i.status == .pending) = some item) :
      RQStep allowStop s { s with
        queue := updateFirst (fun i => i.status == .pending) (markRendering now) s.queue
        current := some item.id
        loops := pre ++ .awaiting item.id :: post }
  | exitLoop (s : RQState) (pre post : List LoopPC)
      (hl : s.loops = pre ++ .atLoop :: post)
      (hstop : s.isPaused = true ∨ s.queue.find? (fun i => i.status == .pending) = none) :
      RQStep allowStop s { s with isProcessing := false, loops := pre ++ post }
  | settleOk (s : RQState) (pre post : List LoopPC) (id : String) (now : ℕ)
      (hl : s.loops = pre ++ .awaiting id :: post) :
      RQStep allowStop s { s with
        queue := updateFirst (fun i => i.id == id) (applyResolve now) s.queue
        current := none
        loops := pre ++ .atLoop :: post }
  | settleErr (s : RQState) (pre post : List LoopPC) (id : String) (msg : String) (now : ℕ)
      (hl : s.loops = pre ++ .awaiting id :: post) :
      RQStep allowStop s { s with
        queue := updateFirst (fun i => i.id == id) (applyCatch msg now) s.queue
        current := none
        loops := pre ++ .atLoop :: post }
  | progressEvt (s : RQState) (id : String) (p : RenderProgress) (now : ℕ) :
      RQStep allowStop s { s with
        queue := updateFirst (fun i => i.id == id) (applyProgress p now) s.queue }
  | pause (s : RQState) :
      RQStep allowStop s { s with isPaused := true }
  | start (s : RQState) :
      RQStep allowStop s { s with isPaused := false }
  | stop (s : RQState) (now : ℕ) (ha : allowStop = true) :
      RQStep allowStop s { s with
        queue := stopQueueUpd s.current now s.queue
        isPaused := true
        current := none
        isProcessing := false }
  | clear (s : RQState) (ha : allowStop = true) :
      RQStep allowStop s { s with
        queue := []
        current := none
        isProcessing := false }
  | retryStep (s : RQState) (id : String) :
      RQStep allowStop s { s with queue := (retryItem id s.queue).2 }
  | removeStep (s : RQState) (id : String) :
      RQStep allowStop s { s with queue := (removeFromQueue id s.queue).2 }
  | moveUpStep (s : RQState) (id : String) :
      RQStep allowStop s { s with queue := (moveItemUp id s.queue).2 }
  | moveDownStep (s : RQState) (id : String) :
      RQStep allowStop s { s with queue := (moveItemDown id s.queue).2 }

inductive RQReachable (allowStop : Bool) : RQState → Prop where
  | init : RQReachable allowStop rqInit
  | step (s s' : RQState) : RQReachable allowStop s → RQStep allowStop s s' →
      RQReachable allowStop s'

/-! ### Elementary facts about the item updaters -/

theorem applyProgress_id (p : RenderProgress) (now : ℕ) (item : QueueItem) :
    (applyProgress p now item).id = item.id := by
  cases hp : p.status <;> simp [applyProgress, hp]

theorem applyProgress_rendering (p : RenderProgress) (now : ℕ) (item : QueueItem)
    (h : (applyProgress p now item).status = .rendering) : item.status = .rendering := by
  cases hp : p.status with
  | rendering => simpa [applyProgress, hp] using h
  | completed => simp [applyProgress, hp] at h
  | error => simp [applyProgress, hp] at h
  | cancelled => simp [applyProgress, hp] at h

theorem applyResolve_id (now : ℕ) (item : QueueItem) :
    (applyResolve now item).id = item.id := by
  by_cases h : item.status = QStatus.rendering <;> simp [applyResolve, h]

theorem applyResolve_not_rendering (now : ℕ) (item : QueueItem) :
    (applyResolve now item).status ≠ .rendering := by
  by_cases h : item.status = QStatus.rendering <;> simp [applyResolve, h]

theorem applyCatch_not_rendering (msg : String) (now : ℕ) (item : QueueItem) :
    (applyCatch msg now item).status ≠ .rendering := by
  simp [applyCatch]

theorem mem_updateFirst_cases {α : Type} (p : α → Bool) (f : α → α) :
    ∀ (l : List α) (a : α), a ∈ updateFirst p f l →
      a ∈ l ∨ ∃ x ∈ l, p x = true ∧ a = f x := by
  intro l
  induction l with
  | nil => intro a ha; cases ha
  | cons x xs ih =>
    intro a ha
    by_cases hx : p x
    · simp only [updateFirst, if_pos hx] at ha
      rcases List.mem_cons.mp ha with rfl | ha
      · exact Or.inr ⟨x, List.mem_cons_self x xs, hx, rfl⟩
      · exact Or.inl (List.mem_cons_of_mem x ha)
    · simp only [updateFirst, if_neg hx] at ha
      rcases List.mem_cons.mp ha with rfl | ha
      · exact Or.inl (List.mem_cons_self a xs)
      · rcases ih a ha with h | ⟨y, hy, hpy, rfl⟩
        · exact Or.inl (List.mem_cons_of_mem x h)
        · exact Or.inr ⟨y, List.mem_cons_of_mem x hy, hpy, rfl⟩

theorem moveItemUp_perm (id : String) (q : List QueueItem) :
    List.Perm (moveItemUp id q).2 q := by
  unfold moveItemUp
  cases h : q.findIdx? (fun i => i.id == id) with
  | none => exact List.Perm.refl q
  | some n =>
    cases n with
    | zero => exact List.Perm.refl q
    | succ m => exact swapAdj_perm m q

theorem moveItemDown_perm (id : String) (q : List QueueItem) :
    List.Perm (moveItemDown id q).2 q := by
  unfold moveItemDown
  cases h : q.findIdx? (fun i => i.id == id) with
  | none => exact List.Perm.refl q
  | some n =>
    by_cases hn : q.length - 1 ≤ n
    · simp only [if_pos hn]; exact List.Perm.refl q
    · simp only [if_neg hn]; exact swapAdj_perm n q

theorem removeFromQueue_sublist (id : String) (q : List QueueItem) :
    List.Sublist (removeFromQueue id q).2 q := by
  unfold removeFromQueue
  cases h : q.find? (fun i => i.id == id) with
  | none => exact List.Sublist.refl q
  | some x => exact List.eraseP_sublist q

/-! ### Counting rendering items -/

theorem countRendering_eq_zero (q : List QueueItem)
    (h : ∀ i ∈ q, i.status ≠ .rendering) : countRendering q = 0 := by
  unfold countRendering
  rw [List.length_eq_zero]
  rw [List.filter_eq_nil_iff]
  intro a ha
  simpa using h a ha

theorem countRendering_le_one_of_key (c : String) :
    ∀ q : List QueueItem, (q.map QueueItem.id).Nodup →
      (∀ i ∈ q, i.status = .rendering → i.id = c) → countRendering q ≤ 1 := by
  intro q
  induction q with
  | nil => intro _ _; simp [countRendering]
  | cons x t ih =>
    intro hn hc
    rw [List.map_cons, List.nodup_cons] at hn
    by_cases hx : x.status = QStatus.rendering
    · have hx' : x.id = c := hc x (List.mem_cons_self x t) hx
      have ht : countRendering t = 0 := by
        apply countRendering_eq_zero
        intro i hi hri
        have hic : i.id = c := hc i (List.mem_cons_of_mem x hi) hri
        exact hn.1 (by rw [hx', ← hic]; exact List.mem_map_of_mem QueueItem.id hi)
      have : countRendering (x :: t) = countRendering t + 1 := by
        simp [countRendering, List.filter_cons, hx]
      omega
    · have : countRendering (x :: t) = countRendering t := by
        simp [countRendering, List.filter_cons, hx]
      rw [this]
      exact ih hn.2 fun i hi hri => hc i (List.mem_cons_of_mem x hi) hri

/-! ### The single-loop invariant

With `stopQueue`/`clearQueue` switched off, at most one `processQueue`
invocation is ever alive (the `isProcessing` guard at line 154 admits a
new one only when the previous one has terminated), `currentItem` tracks
the item of the unique suspended render, and every `rendering` item is the
current one. -/

structure RQInv (s : RQState) : Prop where
  idsNodup : (s.queue.map QueueItem.id).Nodup
  renderingCurrent : ∀ i ∈ s.queue, i.status = .rendering → s.current = some i.id
  loopsLe : s.loops.length ≤ 1
  procLoops : s.isProcessing = false → s.loops = []
  atLoopCurrent : LoopPC.atLoop ∈ s.loops → s.current = none
  awaitingCurrent : ∀ id, LoopPC.awaiting id ∈ s.loops → s.current = some id
  noLoopCurrent : s.loops = [] → s.current = none

theorem single_of_append_cons {α : Type} {pre post : List α} {x : α}
    (h : (pre ++ x :: post).length ≤ 1) : pre = [] ∧ post = [] := by
  rcases pre with _ | ⟨a, pre⟩
  · rcases post with _ | ⟨b, post⟩
    · exact ⟨rfl, rfl⟩
    · simp at h
  · simp at h

theorem rqInv_init : RQInv rqInit := by
  constructor <;> simp [rqInit]

theorem retryItem_mem (id : String) (q : List QueueItem) :
    ∀ i ∈ (retryItem id q).2, i ∈ q ∨ (i.status = .pending ∧ ∃ j ∈ q, j.id = i.id) := by
  unfold retryItem
  cases hf : q.find? (fun i => i.id == id) with
  | none => intro i hi; exact Or.inl hi
  | some item =>
    by_cases hst : item.status = QStatus.error ∨ item.status = QStatus.cancelled
    · simp only [hst, if_pos]
      intro i hi
      rcases mem_updateFirst_cases _ _ q i hi with h | ⟨x, hx, hpx, rfl⟩
      · exact Or.inl h
      · exact Or.inr ⟨rfl, x, hx, rfl⟩
    · simp only [hst, if_neg, if_false]
      intro i hi
      exact Or.inl hi

theorem retryItem_map_id (id : String) (q : List QueueItem) :
    (retryItem id q).2.map QueueItem.id = q.map QueueItem.id := by
  unfold retryItem
  cases hf : q.find? (fun i => i.id == id) with
  | none => rfl
  | some item =>
    by_cases hst : item.status = QStatus.error ∨ item.status = QStatus.cancelled
    · simp only [hst, if_pos]
      apply map_updateFirst
      intro x
      rfl
    · simp only [hst, if_neg, if_false]

/-- Updating the (unique) item with the given id by a status change that
never produces `rendering` leaves a queue without rendering items, given
that every rendering item had that id. -/
theorem settle_no_rendering (q : List QueueItem) (id : String) (f : QueueItem → QueueItem)
    (hfr : ∀ x, (f x).status ≠ .rendering)
    (hn : (q.map QueueItem.id).Nodup)
    (hrc : ∀ i ∈ q, i.status = .rendering → i.id = id) :
    ∀ i ∈ updateFirst (fun i => i.id == id) f q, i.status ≠ .rendering := by
  cases hfind : q.find? (fun i => i.id == id) with
  | none =>
    rw [updateFirst_of_find?_eq_none _ _ _ hfind]
    intro i hi hr
    have := List.find?_eq_none.mp hfind i hi
    simp [hrc i hi hr] at this
  | some x =>
    obtain ⟨l₁, l₂, hsplit, hfalse, hupd⟩ := find?_eq_some_split _ f q x hfind
    have hpx : x.id = id := by simpa using List.find?_some hfind
    rw [hupd]
    intro i hi hr
    rcases List.mem_append.mp hi with hi₁ | hi₂
    · have hiq : i ∈ q := by rw [hsplit]; exact List.mem_append_left _ hi₁
      have h1 : i.id = id := hrc i hiq hr
      have h2 := hfalse i hi₁
      rw [h1] at h2
      simp at h2
    · rcases List.mem_cons.mp hi₂ with rfl | hi₂
      · exact hfr x hr
      · have hiq : i ∈ q := by
          rw [hsplit]; exact List.mem_append_right _ (List.mem_cons_of_mem x hi₂)
        have hiid : i.id = id := hrc i hiq hr
        have hnodup := hn
        rw [hsplit, List.map_append, List.map_cons] at hnodup
        have h3 : (x.id :: l₂.map QueueItem.id).Nodup := (List.nodup_append.mp hnodup).2.1
        have hxid : x.id ∉ l₂.map QueueItem.id := (List.nodup_cons.mp h3).1
        exact hxid (by rw [hpx, ← hiid]; exact List.mem_map_of_mem QueueItem.id hi₂)

theorem settle_inv (s : RQState) (pre post : List LoopPC) (id : String)
    (f : QueueItem → QueueItem) (hfid : ∀ x, (f x).id = x.id)
    (hfr : ∀ x, (f x).status ≠ .rendering)
    (hl : s.loops = pre ++ .awaiting id :: post) (hinv : RQInv s) :
    RQInv { s with
      queue := updateFirst (fun i => i.id == id) f s.queue
      current := none
      loops := pre ++ .atLoop :: post } := by
  obtain ⟨hpre, hpost⟩ := single_of_append_cons (hl ▸ hinv.loopsLe)
  subst hpre
  subst hpost
  have hcur : s.current = some id := hinv.awaitingCurrent id (by rw [hl]; simp)
  have hrc : ∀ i ∈ s.queue, i.status = .rendering → i.id = id := by
    intro i hi hr
    have h := hinv.renderingCurrent i hi hr
    rw [hcur] at h
    exact (Option.some.inj h).symm
  have hnone := settle_no_rendering s.queue id f hfr hinv.idsNodup hrc
  refine ⟨?_, ?_, by simp, ?_, fun _ => rfl, ?_, ?_⟩
  · dsimp only
    rw [map_updateFirst (fun i => i.id == id) f QueueItem.id hfid s.queue]
    exact hinv.idsNodup
  · intro i hi hr
    exact absurd hr (hnone i hi)
  · intro h
    exact absurd (hinv.procLoops h) (by rw [hl]; simp)
  · intro id' h
    dsimp only at h
    simp at h
  · intro h
    dsimp only at h
    simp at h

theorem rqStep_inv {s s' : RQState} (hstep : RQStep false s s') (hinv : RQInv s) :
    RQInv s' := by
  cases hstep with
  | submit bf op opts id hfresh =>
    refine ⟨?_, ?_, hinv.loopsLe, hinv.procLoops, hinv.atLoopCurrent,
      hinv.awaitingCurrent, hinv.noLoopCurrent⟩
    · dsimp only
      rw [List.map_append]
      refine List.Nodup.append hinv.idsNodup (List.nodup_singleton _) ?_
      intro a ha hb
      simp [mkPending] at hb
      obtain ⟨i, hi, hid⟩ := List.mem_map.mp ha
      subst hb
      exact hfresh i hi hid
    · intro i hi hr
      dsimp only at hi ⊢
      rcases List.mem_append.mp hi with h | h
      · exact hinv.renderingCurrent i h hr
      · simp at h
        rw [h] at hr
        simp [mkPending] at hr
  | enter hp hpause =>
    have hl : s.loops = [] := hinv.procLoops hp
    have hc : s.current = none := hinv.noLoopCurrent hl
    refine ⟨hinv.idsNodup, hinv.renderingCurrent, ?_, ?_, ?_, ?_, ?_⟩
    · dsimp only
      rw [hl]
      simp
    · dsimp only
      intro h
      simp at h
    · intro _
      exact hc
    · intro id hid
      dsimp only at hid
      rw [hl] at hid
      simp at hid
    · intro h
      dsimp only at h
      simp at h
  | launch pre post item now hl hpause hfind =>
    obtain ⟨hpre, hpost⟩ := single_of_append_cons (hl ▸ hinv.loopsLe)
    subst hpre
    subst hpost
    have hcur : s.current = none := hinv.atLoopCurrent (by rw [hl]; simp)
    have hnor : ∀ i ∈ s.queue, i.status ≠ .rendering := by
      intro i hi hr
      have h := hinv.renderingCurrent i hi hr
      rw [hcur] at h
      cases h
    obtain ⟨l₁, l₂, hsplit, hfalse, hupd⟩ :=
      find?_eq_some_split _ (markRendering now) s.queue item hfind
    refine ⟨?_, ?_, by simp, ?_, ?_, ?_, ?_⟩
    · dsimp only
      rw [map_updateFirst (fun i => i.status == QStatus.pending) (markRendering now)
        QueueItem.id (fun x => rfl) s.queue]
      exact hinv.idsNodup
    · intro i hi hr
      dsimp only at hi ⊢
      rw [hupd] at hi
      rcases List.mem_append.mp hi with h1 | h2
      · exact absurd hr (hnor i (by rw [hsplit]; exact List.mem_append_left _ h1))
      · rcases List.mem_cons.mp h2 with rfl | h3
        · rfl
        · exact absurd hr (hnor i
            (by rw [hsplit]; exact List.mem_append_right _ (List.mem_cons_of_mem _ h3)))
    · intro h
      exact absurd (hinv.procLoops h) (by rw [hl]; simp)
    · intro h
      dsimp only at h
      simp at h
    · intro id' h
      dsimp only at h
      simp at h
      rw [h]
    · intro h
      dsimp only at h
      simp at h
  | exitLoop pre post hl hstop =>
    obtain ⟨hpre, hpost⟩ := single_of_append_cons (hl ▸ hinv.loopsLe)
    subst hpre
    subst hpost
    have hcur : s.current = none := hinv.atLoopCurrent (by rw [hl]; simp)
    refine ⟨hinv.idsNodup, hinv.renderingCurrent, by simp, fun _ => rfl, ?_, ?_,
      fun _ => hcur⟩
    · intro h
      simp at h
    · intro id h
      simp at h
  | settleOk pre post id now hl =>
    exact settle_inv s pre post id (applyResolve now) (fun x => applyResolve_id now x)
      (fun x => applyResolve_not_rendering now x) hl hinv
  | settleErr pre post id msg now hl =>
    exact settle_inv s pre post id (applyCatch msg now) (fun x => rfl)
      (fun x => applyCatch_not_rendering msg now x) hl hinv
  | progressEvt id p now =>
    refine ⟨?_, ?_, hinv.loopsLe, hinv.procLoops, hinv.atLoopCurrent,
      hinv.awaitingCurrent, hinv.noLoopCurrent⟩
    · dsimp only
      rw [map_updateFirst (fun i => i.id == id) (applyProgress p now) QueueItem.id
        (fun x => applyProgress_id p now x) s.queue]
      exact hinv.idsNodup
    · intro i hi hr
      dsimp only at hi ⊢
      rcases mem_updateFirst_cases _ _ s.queue i hi with h | ⟨x, hx, hpx, rfl⟩
      · exact hinv.renderingCurrent i h hr
      · have hxr : x.status = .rendering := applyProgress_rendering p now x hr
        rw [applyProgress_id p now x]
        exact hinv.renderingCurrent x hx hxr
  | pause =>
    exact ⟨hinv.idsNodup, hinv.renderingCurrent, hinv.loopsLe, hinv.procLoops,
      hinv.atLoopCurrent, hinv.awaitingCurrent, hinv.noLoopCurrent⟩
  | start =>
    exact ⟨hinv.idsNodup, hinv.renderingCurrent, hinv.loopsLe, hinv.procLoops,
      hinv.atLoopCurrent, hinv.awaitingCurrent, hinv.noLoopCurrent⟩
  | stop now ha =>
    exact absurd ha (by simp)
  | clear ha =>
    exact absurd ha (by simp)
  | retryStep id =>
    refine ⟨?_, ?_, hinv.loopsLe, hinv.procLoops, hinv.atLoopCurrent,
      hinv.awaitingCurrent, hinv.noLoopCurrent⟩
    · dsimp only
      rw [retryItem_map_id]
      exact hinv.idsNodup
    · intro i hi hr
      dsimp only at hi ⊢
      rcases retryItem_mem id s.queue i hi with h | ⟨hp, _⟩
      · exact hinv.renderingCurrent i h hr
      · rw [hp] at hr
        simp at hr
  | removeStep id =>
    have hsub := removeFromQueue_sublist id s.queue
    refine ⟨?_, ?_, hinv.loopsLe, hinv.procLoops, hinv.atLoopCurrent,
      hinv.awaitingCurrent, hinv.noLoopCurrent⟩
    · exact hinv.idsNodup.sublist (hsub.map QueueItem.id)
    · intro i hi hr
      exact hinv.renderingCurrent i (hsub.subset hi) hr
  | moveUpStep id =>
    have hperm := moveItemUp_perm id s.queue
    refine ⟨?_, ?_, hinv.loopsLe, hinv.procLoops, hinv.atLoopCurrent,
      hinv.awaitingCurrent, hinv.noLoopCurrent⟩
    · exact ((hperm.map QueueItem.id).nodup_iff).mpr hinv.idsNodup
    · intro i hi hr
      exact hinv.renderingCurrent i (hperm.subset hi) hr
  | moveDownStep id =>
    have hperm := moveItemDown_perm id s.queue
    refine ⟨?_, ?_, hinv.loopsLe, hinv.procLoops, hinv.atLoopCurrent,
      hinv.awaitingCurrent, hinv.noLoopCurrent⟩
    · exact ((hperm.map QueueItem.id).nodup_iff).mpr hinv.idsNodup
    · intro i hi hr
      exact hinv.renderingCurrent i (hperm.subset hi) hr

theorem rqReachable_inv (s : RQState) (h : RQReachable false s) : RQInv s := by
  induction h with
  | init => exact rqInv_init
  | step s s' hr hst ih => exact rqStep_inv hst ih

theorem rqCount_le_one (s : RQState) (h : RQReachable false s) :
    countRendering s.queue ≤ 1 := by
  have hinv := rqReachable_inv s h
  cases hcur : s.current with
  | none =>
    have : countRendering s.queue = 0 := by
      apply countRendering_eq_zero
      intro i hi hr
      have hx := hinv.renderingCurrent i hi hr
      rw [hcur] at hx
      cases hx
    omega
  | some c =>
    refine countRendering_le_one_of_key c s.queue hinv.idsNodup ?_
    intro i hi hr
    have hx := hinv.renderingCurrent i hi hr
    rw [hcur] at hx
    exact (Option.some.inj hx).symm

theorem mem_or_image_updateFirst {α : Type} (pr : α → Bool) (f : α → α) :
    ∀ (l : List α) (a : α), a ∈ l →
      a ∈ updateFirst pr f l ∨ f a ∈ updateFirst pr f l := by
  intro l
  induction l with
  | nil => intro a ha; cases ha
  | cons x xs ih =>
    intro a ha
    by_cases hx : pr x
    · simp only [updateFirst, if_pos hx]
      rcases List.mem_cons.mp ha with rfl | ha
      · exact Or.inr (List.mem_cons_self _ _)
      · exact Or.inl (List.mem_cons_of_mem _ ha)
    · simp only [updateFirst, if_neg hx]
      rcases List.mem_cons.mp ha with rfl | ha
      · exact Or.inl (List.mem_cons_self _ _)
      · rcases ih a ha with h | h
        · exact Or.inl (List.mem_cons_of_mem _ h)
        · exact Or.inr (List.mem_cons_of_mem _ h)

/-! ## The server event system

One step for each entry point of `RenderJobManager`:
* `addJob` (lines 58-76): fresh uuid, `queued`, pushed on the queue
  (`processQueue` is triggered asynchronously and is the `launch` step);
* `launch` is one call of `processQueue` (lines 78-93) that gets past the
  guard `activeJobs.size >= maxConcurrentJobs || queue.length === 0`:
  shift the queue head, mark the job `rendering`, add it to `activeJobs`;
  `launchMissing` is the `if (!job) return` path, which also consumes the
  shifted id;
* `progressUpd` (lines 140-151): a stdout chunk with a progress match sets
  `job.progress = Math.min(progress, 100)`; the process only emits while
  the job is active;
* `finishOk` (lines 157-169 and the `finally` at 100-107): exit code 0
  marks the job `completed` with `progress = 100`, sets `completedAt` and
  releases the `activeJobs` slot;
* `finishFail` (lines 96-99 and 100-107): a rejection marks the job
  `failed` with the rejection message, sets `completedAt` and releases the
  slot;
* `cancel`: the `cancelJob` method (lines 207-219). -/

def srvMarkRendering (now : ℕ) (j : SJob) : SJob :=
  { j with status := .rendering, startedAt := some now }

def srvApplyProgress (p : ℚ) (j : SJob) : SJob :=
  { j with progress := min p 100 }

def srvFinishOk (now : ℕ) (j : SJob) : SJob :=
  { j with status := .completed, progress := 100, completedAt := some now }

def srvFinishFail (msg : String) (now : ℕ) (j : SJob) : SJob :=
  { j with status := .failed, error := some msg, completedAt := some now }

inductive SrvStep : SrvState → SrvState → Prop where
  | addJob (s : SrvState) (id : String) (now : ℕ)
      (hfresh : ∀ j ∈ s.jobs, j.id ≠ id) :
      SrvStep s { jobs := s.jobs ++ [freshSJob id now], queue := s.queue ++ [id],
                  active := s.active }
  | launch (s : SrvState) (id : String) (rest : List String) (now : ℕ) (j : SJob)
      (hq : s.queue = id :: rest)
      (hcap : s.active.length < maxConcurrentJobs)
      (hfind : s.jobs.find? (fun j' => j'.id == id) = some j) :
      SrvStep s { jobs := updateFirst (fun j' => j'.id == id) (srvMarkRendering now) s.jobs,
                  queue := rest, active := id :: s.active }
  | launchMissing (s : SrvState) (id : String) (rest : List String)
      (hq : s.queue = id :: rest)
      (hcap : s.active.length < maxConcurrentJobs)
      (hnone : s.jobs.find? (fun j' => j'.id == id) = none) :
      SrvStep s { s with queue := rest }
  | progressUpd (s : SrvState) (id : String) (p : ℚ) (hact : id ∈ s.active) :
      SrvStep s { s with
        jobs := updateFirst (fun j' => j'.id == id) (srvApplyProgress p) s.jobs }
  | finishOk (s : SrvState) (id : String) (now : ℕ) (hact : id ∈ s.active) :
      SrvStep s { jobs := updateFirst (fun j' => j'.id == id) (srvFinishOk now) s.jobs,
                  queue := s.queue, active := s.active.erase id }
  | finishFail (s : SrvState) (id : String) (msg : String) (now : ℕ)
      (hact : id ∈ s.active) :
      SrvStep s { jobs := updateFirst (fun j' => j'.id == id) (srvFinishFail msg now) s.jobs,
                  queue := s.queue, active := s.active.erase id }
  | cancel (s : SrvState) (id : String) :
      SrvStep s (srvCancelJob id s).2

inductive SrvReachable : SrvState → Prop where
  | init : SrvReachable srvInit
  | step (s s' : SrvState) : SrvReachable s → SrvStep s s' → SrvReachable s'

structure SrvInv (s : SrvState) : Prop where
  jobsNodup : (s.jobs.map SJob.id).Nodup
  activeNodup : s.active.Nodup
  activeCap : s.active.length ≤ maxConcurrentJobs
  renderingActive : ∀ j ∈ s.jobs, j.status = .rendering → j.id ∈ s.active
  activeRendering : ∀ id ∈ s.active, ∃ j ∈ s.jobs, j.id = id ∧ j.status = .rendering
  queueNotActive : ∀ id ∈ s.queue, id ∉ s.active
  queueNodup : s.queue.Nodup
  queueQueued : ∀ id ∈ s.queue, ∃ j ∈ s.jobs, j.id = id ∧ j.status = .queued

theorem srvInv_init : SrvInv srvInit := by
  constructor <;> simp [srvInit]

theorem ne_key_of_nodup_middle {α β : Type} (key : α → β) (l₁ l₂ : List α) (x : α)
    (hn : ((l₁ ++ x :: l₂).map key).Nodup) : ∀ j ∈ l₂, key j ≠ key x := by
  rw [List.map_append, List.map_cons] at hn
  have h3 := (List.nodup_append.mp hn).2.1
  have hx := (List.nodup_cons.mp h3).1
  intro j hj he
  exact hx (by rw [← he]; exact List.mem_map_of_mem key hj)

theorem eq_of_key_nodup {α β : Type} (key : α → β) :
    ∀ l : List α, (l.map key).Nodup →
      ∀ j₁ ∈ l, ∀ j₂ ∈ l, key j₁ = key j₂ → j₁ = j₂ := by
  intro l
  induction l with
  | nil => intro _ j₁ h; cases h
  | cons x t ih =>
    intro hn j₁ h₁ j₂ h₂ hk
    rw [List.map_cons, List.nodup_cons] at hn
    rcases List.mem_cons.mp h₁ with e₁ | m₁
    · rcases List.mem_cons.mp h₂ with e₂ | m₂
      · rw [e₁, e₂]
      · exfalso
        apply hn.1
        rw [← e₁, hk]
        exact List.mem_map_of_mem key m₂
    · rcases List.mem_cons.mp h₂ with e₂ | m₂
      · exfalso
        apply hn.1
        rw [← e₂, ← hk]
        exact List.mem_map_of_mem key m₁
      · exact ih hn.2 j₁ m₁ j₂ m₂ hk

theorem exists_pres_updateFirst (P : SJob → Prop) (jobs : List SJob) (id a : String)
    (f : SJob → SJob) (hne : a ≠ id)
    (h : ∃ j ∈ jobs, j.id = a ∧ P j) :
    ∃ j ∈ updateFirst (fun j' => j'.id == id) f jobs, j.id = a ∧ P j := by
  obtain ⟨j, hj, hja, hPj⟩ := h
  cases hfind : jobs.find? (fun j' => j'.id == id) with
  | none =>
    rw [updateFirst_of_find?_eq_none _ _ _ hfind]
    exact ⟨j, hj, hja, hPj⟩
  | some x =>
    obtain ⟨l₁, l₂, hsplit, hfalse, hupd⟩ := find?_eq_some_split _ f jobs x hfind
    have hxid : x.id = id := by simpa using List.find?_some hfind
    rw [hupd]
    have hjx : j ≠ x := by
      intro he
      apply hne
      rw [← hja, he, hxid]
    rw [hsplit] at hj
    rcases List.mem_append.mp hj with h1 | h2
    · exact ⟨j, List.mem_append_left _ h1, hja, hPj⟩
    · rcases List.mem_cons.mp h2 with rfl | h3
      · exact absurd rfl hjx
      · exact ⟨j, List.mem_append_right _ (List.mem_cons_of_mem _ h3), hja, hPj⟩

theorem finish_inv (s : SrvState) (id : String) (f : SJob → SJob)
    (hfid : ∀ x, (f x).id = x.id) (hfnr : ∀ x, (f x).status ≠ .rendering)
    (hact : id ∈ s.active) (hinv : SrvInv s) :
    SrvInv { jobs := updateFirst (fun j' => j'.id == id) f s.jobs
             queue := s.queue
             active := s.active.erase id } := by
  refine ⟨?_, ?_, ?_, ?_, ?_, ?_, hinv.queueNodup, ?_⟩
  · dsimp only
    rw [map_updateFirst _ _ SJob.id hfid]
    exact hinv.jobsNodup
  · exact hinv.activeNodup.erase id
  · dsimp only
    exact le_trans (List.erase_sublist id s.active).length_le hinv.activeCap
  · intro j' hj' hr
    dsimp only at hj' ⊢
    cases hfind : s.jobs.find? (fun x => x.id == id) with
    | none =>
      rw [updateFirst_of_find?_eq_none _ _ _ hfind] at hj'
      have hne : j'.id ≠ id := by
        intro he
        have := List.find?_eq_none.mp hfind j' hj'
        simp [he] at this
      exact (List.mem_erase_of_ne hne).mpr (hinv.renderingActive j' hj' hr)
    | some x =>
      obtain ⟨l₁, l₂, hsplit, hfalse, hupd⟩ := find?_eq_some_split _ f s.jobs x hfind
      have hxid : x.id = id := by simpa using List.find?_some hfind
      rw [hupd] at hj'
      rcases List.mem_append.mp hj' with h1 | h2
      · have hne : j'.id ≠ id := by
          have h := hfalse j' h1
          intro he
          rw [he] at h
          simp at h
        have hmem : j' ∈ s.jobs := by rw [hsplit]; exact List.mem_append_left _ h1
        exact (List.mem_erase_of_ne hne).mpr (hinv.renderingActive j' hmem hr)
      · rcases List.mem_cons.mp h2 with rfl | h3
        · exact absurd hr (hfnr x)
        · have hne : j'.id ≠ id := by
            have := ne_key_of_nodup_middle SJob.id l₁ l₂ x (by rw [← hsplit]; exact hinv.jobsNodup) j' h3
            rw [hxid] at this
            exact this
          have hmem : j' ∈ s.jobs := by
            rw [hsplit]; exact List.mem_append_right _ (List.mem_cons_of_mem _ h3)
          exact (List.mem_erase_of_ne hne).mpr (hinv.renderingActive j' hmem hr)
  · intro a ha
    dsimp only at ha ⊢
    have ha' : a ∈ s.active := List.mem_of_mem_erase ha
    have hane : a ≠ id := (hinv.activeNodup.mem_erase_iff.mp ha).1
    exact exists_pres_updateFirst (fun x => x.status = .rendering) s.jobs id a f hane
      (hinv.activeRendering a ha')
  · intro a ha hmem
    exact hinv.queueNotActive a ha (List.mem_of_mem_erase hmem)
  · intro a ha
    dsimp only at ha ⊢
    have hane : a ≠ id := fun he => hinv.queueNotActive a ha (he ▸ hact)
    exact exists_pres_updateFirst (fun x => x.status = .queued) s.jobs id a f hane
      (hinv.queueQueued a ha)

theorem srvCancelJob_cases (id : String) (s : SrvState) :
    (srvCancelJob id s).2 = s ∨
    ∃ j, s.jobs.find? (fun j' => j'.id == id) = some j ∧ j.status = .queued ∧
      (srvCancelJob id s).2 = { s with
        jobs := updateFirst (fun j' => j'.id == id)
          (fun j' => { j' with status := SStatus.cancelled }) s.jobs
        queue := s.queue.erase id } := by
  unfold srvCancelJob
  cases hfind : s.jobs.find? (fun j' => j'.id == id) with
  | none => exact Or.inl rfl
  | some j =>
    by_cases hst : j.status = SStatus.queued
    · exact Or.inr ⟨j, rfl, hst, by simp [hst]⟩
    · exact Or.inl (by simp [hst])

theorem srvStep_inv {s s' : SrvState} (hstep : SrvStep s s') (hinv : SrvInv s) :
    SrvInv s' := by
  cases hstep with
  | addJob id now hfresh =>
    refine ⟨?_, hinv.activeNodup, hinv.activeCap, ?_, ?_, ?_, ?_, ?_⟩
    · dsimp only
      rw [List.map_append]
      refine List.Nodup.append hinv.jobsNodup (List.nodup_singleton _) ?_
      intro a ha hb
      simp [freshSJob] at hb
      subst hb
      obtain ⟨jj, hj, hid⟩ := List.mem_map.mp ha
      exact hfresh jj hj hid
    · intro j hj hr
      dsimp only at hj ⊢
      rcases List.mem_append.mp hj with h | h
      · exact hinv.renderingActive j h hr
      · simp at h
        rw [h] at hr
        simp [freshSJob] at hr
    · intro a ha
      dsimp only at ha ⊢
      obtain ⟨j, hj, hja, hjr⟩ := hinv.activeRendering a ha
      exact ⟨j, List.mem_append_left _ hj, hja, hjr⟩
    · intro a ha
      dsimp only at ha ⊢
      rcases List.mem_append.mp ha with h | h
      · exact hinv.queueNotActive a h
      · simp at h
        subst h
        intro hmem
        obtain ⟨j, hj, hja, _⟩ := hinv.activeRendering _ hmem
        exact hfresh j hj hja
    · dsimp only
      refine List.Nodup.append hinv.queueNodup (List.nodup_singleton _) ?_
      intro a ha hb
      simp at hb
      subst hb
      obtain ⟨j, hj, hja, _⟩ := hinv.queueQueued a ha
      exact hfresh j hj hja
    · intro a ha
      dsimp only at ha ⊢
      rcases List.mem_append.mp ha with h | h
      · obtain ⟨j, hj, hja, hjs⟩ := hinv.queueQueued a h
        exact ⟨j, List.mem_append_left _ hj, hja, hjs⟩
      · simp at h
        subst h
        exact ⟨freshSJob a now, List.mem_append_right _ (by simp), rfl, rfl⟩
  | launch id rest now j hq hcap hfind =>
    have hjid : j.id = id := by simpa using List.find?_some hfind
    have hidq : id ∈ s.queue := by rw [hq]; exact List.mem_cons_self _ _
    have hidact : id ∉ s.active := hinv.queueNotActive id hidq
    have hidrest : id ∉ rest := by
      have h := hinv.queueNodup
      rw [hq] at h
      exact (List.nodup_cons.mp h).1
    obtain ⟨l₁, l₂, hsplit, hfalse, hupd⟩ :=
      find?_eq_some_split _ (srvMarkRendering now) s.jobs j hfind
    refine ⟨?_, ?_, ?_, ?_, ?_, ?_, ?_, ?_⟩
    · dsimp only
      rw [map_updateFirst (fun j' => j'.id == id) (srvMarkRendering now) SJob.id
        (fun x => rfl) s.jobs]
      exact hinv.jobsNodup
    · dsimp only
      exact List.nodup_cons.mpr ⟨hidact, hinv.activeNodup⟩
    · dsimp only
      rw [List.length_cons]
      omega
    · intro j' hj' hr
      dsimp only at hj' ⊢
      rw [hupd] at hj'
      rcases List.mem_append.mp hj' with h1 | h2
      · have hmem : j' ∈ s.jobs := by rw [hsplit]; exact List.mem_append_left _ h1
        exact List.mem_cons_of_mem _ (hinv.renderingActive j' hmem hr)
      · rcases List.mem_cons.mp h2 with e | h3
        · rw [e]
          simp [srvMarkRendering, hjid]
        · have hmem : j' ∈ s.jobs := by
            rw [hsplit]; exact List.mem_append_right _ (List.mem_cons_of_mem _ h3)
          exact List.mem_cons_of_mem _ (hinv.renderingActive j' hmem hr)
    · intro a ha
      dsimp only at ha ⊢
      rcases List.mem_cons.mp ha with e | ha'
      · refine ⟨srvMarkRendering now j, ?_, by simp [srvMarkRendering, hjid, e], ?_⟩
        · rw [hupd]
          exact List.mem_append_right _ (List.mem_cons_self _ _)
        · simp [srvMarkRendering]
      · obtain ⟨jr, hjr, hjra, hjrr⟩ := hinv.activeRendering a ha'
        have hane : a ≠ id := fun he => hidact (he ▸ ha')
        exact exists_pres_updateFirst (fun x => x.status = .rendering) s.jobs id a _ hane
          ⟨jr, hjr, hjra, hjrr⟩
    · intro a ha
      dsimp only at ha ⊢
      have haq : a ∈ s.queue := by rw [hq]; exact List.mem_cons_of_mem _ ha
      have h1 : a ∉ s.active := hinv.queueNotActive a haq
      have h2 : a ≠ id := fun he => hidrest (he ▸ ha)
      intro hmem
      rcases List.mem_cons.mp hmem with he | hmem'
      · exact h2 he
      · exact h1 hmem'
    · have h := hinv.queueNodup
      rw [hq] at h
      exact (List.nodup_cons.mp h).2
    · intro a ha
      dsimp only at ha ⊢
      have haq : a ∈ s.queue := by rw [hq]; exact List.mem_cons_of_mem _ ha
      have h2 : a ≠ id := fun he => hidrest (he ▸ ha)
      exact exists_pres_updateFirst (fun x => x.status = .queued) s.jobs id a _ h2
        (hinv.queueQueued a haq)
  | launchMissing id rest hq hcap hnone =>
    refine ⟨hinv.jobsNodup, hinv.activeNodup, hinv.activeCap, hinv.renderingActive,
      hinv.activeRendering, ?_, ?_, ?_⟩
    · intro a ha
      exact hinv.queueNotActive a (by rw [hq]; exact List.mem_cons_of_mem _ ha)
    · have h := hinv.queueNodup
      rw [hq] at h
      exact (List.nodup_cons.mp h).2
    · intro a ha
      exact hinv.queueQueued a (by rw [hq]; exact List.mem_cons_of_mem _ ha)
  | progressUpd id p hact =>
    refine ⟨?_, hinv.activeNodup, hinv.activeCap, ?_, ?_, hinv.queueNotActive,
      hinv.queueNodup, ?_⟩
    · dsimp only
      rw [map_updateFirst (fun j' => j'.id == id) (srvApplyProgress p) SJob.id
        (fun x => rfl) s.jobs]
      exact hinv.jobsNodup
    · intro j' hj' hr
      dsimp only at hj' ⊢
      rcases mem_updateFirst_cases _ _ s.jobs j' hj' with h | ⟨x, hx, hpx, e⟩
      · exact hinv.renderingActive j' h hr
      · rw [e] at hr ⊢
        have hxr : x.status = .rendering := by simpa [srvApplyProgress] using hr
        have := hinv.renderingActive x hx hxr
        simpa [srvApplyProgress] using this
    · intro a ha
      dsimp only at ha ⊢
      obtain ⟨jr, hjr, hjra, hjrr⟩ := hinv.activeRendering a ha
      rcases mem_or_image_updateFirst (fun j' => j'.id == id) (srvApplyProgress p)
        s.jobs jr hjr with h | h
      · exact ⟨jr, h, hjra, hjrr⟩
      · exact ⟨srvApplyProgress p jr, h, by simpa [srvApplyProgress] using hjra,
          by simpa [srvApplyProgress] using hjrr⟩
    · intro a ha
      dsimp only at ha ⊢
      obtain ⟨jq, hjq, hja, hjs⟩ := hinv.queueQueued a ha
      rcases mem_or_image_updateFirst (fun j' => j'.id == id) (srvApplyProgress p)
        s.jobs jq hjq with h | h
      · exact ⟨jq, h, hja, hjs⟩
      · exact ⟨srvApplyProgress p jq, h, by simpa [srvApplyProgress] using hja,
          by simpa [srvApplyProgress] using hjs⟩
  | finishOk id now hact =>
    exact finish_inv s id (srvFinishOk now) (fun x => rfl)
      (fun x => by simp [srvFinishOk]) hact hinv
  | finishFail id msg now hact =>
    exact finish_inv s id (srvFinishFail msg now) (fun x => rfl)
      (fun x => by simp [srvFinishFail]) hact hinv
  | cancel id =>
    rcases srvCancelJob_cases id s with he | ⟨j, hfind, hst, he⟩
    · rw [he]
      exact hinv
    · rw [he]
      have hjid : j.id = id := by simpa using List.find?_some hfind
      have hjmem : j ∈ s.jobs := List.mem_of_find?_eq_some hfind
      refine ⟨?_, hinv.activeNodup, hinv.activeCap, ?_, ?_, ?_, ?_, ?_⟩
      · dsimp only
        rw [map_updateFirst (fun j' => j'.id == id)
          (fun j' => { j' with status := SStatus.cancelled }) SJob.id (fun x => rfl) s.jobs]
        exact hinv.jobsNodup
      · intro j' hj' hr
        dsimp only at hj' ⊢
        rcases mem_updateFirst_cases _ _ s.jobs j' hj' with h | ⟨x, hx, hpx, e⟩
        · exact hinv.renderingActive j' h hr
        · rw [e] at hr
          simp at hr
      · intro a ha
        dsimp only at ha ⊢
        obtain ⟨jr, hjr, hjra, hjrr⟩ := hinv.activeRendering a ha
        have hane : a ≠ id := by
          intro he'
          subst he'
          have : jr = j := eq_of_key_nodup SJob.id s.jobs hinv.jobsNodup jr hjr j hjmem
            (by rw [hjra, hjid])
          rw [this, hst] at hjrr
          cases hjrr
        exact exists_pres_updateFirst (fun x => x.status = .rendering) s.jobs id a _ hane
          ⟨jr, hjr, hjra, hjrr⟩
      · intro a ha hmem
        dsimp only at ha
        exact hinv.queueNotActive a (List.mem_of_mem_erase ha) hmem
      · exact hinv.queueNodup.erase id
      · intro a ha
        dsimp only at ha ⊢
        have ha' : a ∈ s.queue := List.mem_of_mem_erase ha
        have hane : a ≠ id := (hinv.queueNodup.mem_erase_iff.mp ha).1
        exact exists_pres_updateFirst (fun x => x.status = .queued) s.jobs id a _ hane
          (hinv.queueQueued a ha')

theorem srvReachable_inv (s : SrvState) (h : SrvReachable s) : SrvInv s := by
  induction h with
  | init => exact srvInv_init
  | step s s' hr hst ih => exact srvStep_inv hst ih

def srvCountRendering (jobs : List SJob) : ℕ :=
  (jobs.filter fun j => j.status == .rendering).length

theorem nodup_subset_length {α : Type} [DecidableEq α] (l₁ l₂ : List α)
    (h₁ : l₁.Nodup) (hsub : l₁ ⊆ l₂) : l₁.length ≤ l₂.length := by
  have h2 : l₁.toFinset.card = l₁.length := List.toFinset_card_of_nodup h₁
  have h3 : l₁.toFinset ⊆ l₂.toFinset := by
    intro a ha
    rw [List.mem_toFinset] at ha ⊢
    exact hsub ha
  calc l₁.length = l₁.toFinset.card := h2.symm
    _ ≤ l₂.toFinset.card := Finset.card_le_card h3
    _ ≤ l₂.length := l₂.toFinset_card_le

theorem srvCount_le (s : SrvState) (h : SrvReachable s) :
    srvCountRendering s.jobs ≤ maxConcurrentJobs := by
  have hinv := srvReachable_inv s h
  have hsub : (s.jobs.filter fun j => j.status == .rendering).map SJob.id ⊆ s.active := by
    intro a ha
    obtain ⟨j, hj, e⟩ := List.mem_map.mp ha
    have hj2 := List.mem_filter.mp hj
    rw [← e]
    exact hinv.renderingActive j hj2.1 (by simpa using hj2.2)
  have hn : ((s.jobs.filter fun j => j.status == .rendering).map SJob.id).Nodup :=
    hinv.jobsNodup.sublist ((List.filter_sublist _).map SJob.id)
  have hlen := nodup_subset_length _ s.active hn hsub
  rw [List.length_map] at hlen
  exact le_trans hlen hinv.activeCap

/-- The job with the given id exists and every job record carrying that id
is in the `cancelled` state. -/
def SrvCancelled (id : String) (s : SrvState) : Prop :=
  (∃ j ∈ s.jobs, j.id = id) ∧ ∀ j ∈ s.jobs, j.id = id → j.status = .cancelled

theorem srvStep_cancelled {s s' : SrvState} (hstep : SrvStep s s') (hinv : SrvInv s)
    (id : String) (hc : SrvCancelled id s) : SrvCancelled id s' := by
  obtain ⟨⟨j₀, hj₀, hj₀id⟩, hall⟩ := hc
  cases hstep with
  | addJob nid now hfresh =>
    have hne : id ≠ nid := by
      intro he
      exact hfresh j₀ hj₀ (by rw [hj₀id, he])
    constructor
    · exact ⟨j₀, List.mem_append_left _ hj₀, hj₀id⟩
    · intro j hj hid
      rcases List.mem_append.mp hj with h | h
      · exact hall j h hid
      · simp at h
        rw [h] at hid
        simp [freshSJob] at hid
        exact absurd hid.symm hne
  | launch lid rest now j hq hcap hfind =>
    have hlq : lid ∈ s.queue := by rw [hq]; exact List.mem_cons_self _ _
    obtain ⟨jq, hjq, hjqid, hjqst⟩ := hinv.queueQueued lid hlq
    have hne : lid ≠ id := by
      intro he
      have := hall jq hjq (by rw [hjqid, he])
      rw [this] at hjqst
      cases hjqst
    constructor
    · rcases mem_or_image_updateFirst (fun j' => j'.id == lid) (srvMarkRendering now)
        s.jobs j₀ hj₀ with h | h
      · exact ⟨j₀, h, hj₀id⟩
      · exact ⟨srvMarkRendering now j₀, h, by simpa [srvMarkRendering] using hj₀id⟩
    · intro j' hj' hid
      rcases mem_updateFirst_cases _ _ s.jobs j' hj' with h | ⟨x, hx, hpx, e⟩
      · exact hall j' h hid
      · have hxid : x.id = lid := by simpa using hpx
        rw [e] at hid
        simp [srvMarkRendering] at hid
        rw [hid] at hxid
        exact absurd hxid.symm hne
  | launchMissing lid rest hq hcap hnone =>
    exact ⟨⟨j₀, hj₀, hj₀id⟩, hall⟩
  | progressUpd pid p hact =>
    constructor
    · rcases mem_or_image_updateFirst (fun j' => j'.id == pid) (srvApplyProgress p)
        s.jobs j₀ hj₀ with h | h
      · exact ⟨j₀, h, hj₀id⟩
      · exact ⟨srvApplyProgress p j₀, h, by simpa [srvApplyProgress] using hj₀id⟩
    · intro j' hj' hid
      rcases mem_updateFirst_cases _ _ s.jobs j' hj' with h | ⟨x, hx, hpx, e⟩
      · exact hall j' h hid
      · rw [e] at hid ⊢
        simp only [srvApplyProgress] at hid ⊢
        exact hall x hx hid
  | finishOk fid now hact =>
    obtain ⟨jr, hjr, hjrid, hjrst⟩ := hinv.activeRendering fid hact
    have hne : fid ≠ id := by
      intro he
      have := hall jr hjr (by rw [hjrid, he])
      rw [this] at hjrst
      cases hjrst
    constructor
    · rcases mem_or_image_updateFirst (fun j' => j'.id == fid) (srvFinishOk now)
        s.jobs j₀ hj₀ with h | h
      · exact ⟨j₀, h, hj₀id⟩
      · exact ⟨srvFinishOk now j₀, h, by simpa [srvFinishOk] using hj₀id⟩
    · intro j' hj' hid
      rcases mem_updateFirst_cases _ _ s.jobs j' hj' with h | ⟨x, hx, hpx, e⟩
      · exact hall j' h hid
      · have hxid : x.id = fid := by simpa using hpx
        rw [e] at hid
        simp [srvFinishOk] at hid
        rw [hid] at hxid
        exact absurd hxid.symm hne
  | finishFail fid msg now hact =>
    obtain ⟨jr, hjr, hjrid, hjrst⟩ := hinv.activeRendering fid hact
    have hne : fid ≠ id := by
      intro he
      have := hall jr hjr (by rw [hjrid, he])
      rw [this] at hjrst
      cases hjrst
    constructor
    · rcases mem_or_image_updateFirst (fun j' => j'.id == fid) (srvFinishFail msg now)
        s.jobs j₀ hj₀ with h | h
      · exact ⟨j₀, h, hj₀id⟩
      · exact ⟨srvFinishFail msg now j₀, h, by simpa [srvFinishFail] using hj₀id⟩
    · intro j' hj' hid
      rcases mem_updateFirst_cases _ _ s.jobs j' hj' with h | ⟨x, hx, hpx, e⟩
      · exact hall j' h hid
      · have hxid : x.id = fid := by simpa using hpx
        rw [e] at hid
        simp [srvFinishFail] at hid
        rw [hid] at hxid
        exact absurd hxid.symm hne
  | cancel cid =>
    rcases srvCancelJob_cases cid s with he | ⟨j, hfind, hst, he⟩
    · rw [he]
      exact ⟨⟨j₀, hj₀, hj₀id⟩, hall⟩
    · rw [he]
      constructor
      · rcases mem_or_image_updateFirst (fun j' => j'.id == cid)
          (fun j' => { j' with status := SStatus.cancelled }) s.jobs j₀ hj₀ with h | h
        · exact ⟨j₀, h, hj₀id⟩
        · exact ⟨_, h, hj₀id⟩
      · intro j' hj' hid
        rcases mem_updateFirst_cases _ _ s.jobs j' hj' with h | ⟨x, hx, hpx, e⟩
        · exact hall j' h hid
        · rw [e]

theorem srvSteps_cancelled (s s' : SrvState) (h : Relation.ReflTransGen SrvStep s s')
    (hinv : SrvInv s) (id : String) (hc : SrvCancelled id s) :
    SrvCancelled id s' := by
  have hmain : SrvInv s' ∧ SrvCancelled id s' := by
    induction h with
    | refl => exact ⟨hinv, hc⟩
    | tail hstar hstep ih =>
      exact ⟨srvStep_inv hstep ih.1, srvStep_cancelled hstep ih.1 id ih.2⟩
  exact hmain.2

/-! ## A concrete interleaving where the RenderQueue admits two renders

`stopQueue` (line 103) resets `isProcessing` while the suspended
`processQueue` invocation is still awaiting `renderFile`.  After
`startQueue`, a second invocation starts and admits the next pending item;
when the first invocation's `await` then rejects (the killed process), its
`catch` runs, `currentItem` is reset (line 209) and the old loop iterates
again, admitting a third item while the second invocation's render is
still in flight. -/

def opts0 : BlenderRenderOptions :=
  { blendFile := "a.blend"
    outputPath := "out"
    startFrame := some 1
    endFrame := some 10
    engine := none
    samples := none
    gpu := false }

def itemA : QueueItem := mkPending "a" "a.blend" "outA" opts0

def itemB : QueueItem := mkPending "b" "b.blend" "outB" opts0

def itemC : QueueItem := mkPending "c" "c.blend" "outC" opts0

def msgA : String := "Render was cancelled"

def itemA1 : QueueItem := markRendering 1 itemA

def itemA2 : QueueItem := { itemA1 with status := .cancelled, endTime := some 2 }

def itemA3 : QueueItem := applyCatch msgA 5 itemA2

def itemB1 : QueueItem := markRendering 4 itemB

def itemC1 : QueueItem := markRendering 6 itemC

def rqS1 : RQState :=
  { queue := [itemA], isProcessing := false, isPaused := false, current := none, loops := [] }

def rqS2 : RQState :=
  { queue := [itemA, itemB], isProcessing := false, isPaused := false, current := none,
    loops := [] }

def rqS3 : RQState :=
  { queue := [itemA, itemB, itemC], isProcessing := false, isPaused := false,
    current := none, loops := [] }

def rqS4 : RQState :=
  { queue := [itemA, itemB, itemC], isProcessing := true, isPaused := false,
    current := none, loops := [.atLoop] }

def rqS5 : RQState :=
  { queue := [itemA1, itemB, itemC], isProcessing := true, isPaused := false,
    current := some "a", loops := [.awaiting "a"] }

def rqS6 : RQState :=
  { queue := [itemA2, itemB, itemC], isProcessing := false, isPaused := true,
    current := none, loops := [.awaiting "a"] }

def rqS7 : RQState :=
  { queue := [itemA2, itemB, itemC], isProcessing := false, isPaused := false,
    current := none, loops := [.awaiting "a"] }

def rqS8 : RQState :=
  { queue := [itemA2, itemB, itemC], isProcessing := true, isPaused := false,
    current := none, loops := [.atLoop, .awaiting "a"] }

def rqS9 : RQState :=
  { queue := [itemA2, itemB1, itemC], isProcessing := true, isPaused := false,
    current := some "b", loops := [.awaiting "b", .awaiting "a"] }

def rqS10 : RQState :=
  { queue := [itemA3, itemB1, itemC], isProcessing := true, isPaused := false,
    current := none, loops := [.awaiting "b", .atLoop] }

def rqBad : RQState :=
  { queue := [itemA3, itemB1, itemC1], isProcessing := true, isPaused := false,
    current := some "c", loops := [.awaiting "b", .awaiting "c"] }

theorem rqBad_reachable : RQReachable true rqBad := by
  have h0 : RQReachable true rqInit := .init
  have h1 : RQReachable true rqS1 :=
    .step _ _ h0 (RQStep.submit rqInit "a.blend" "outA" opts0 "a" (by decide))
  have h2 : RQReachable true rqS2 :=
    .step _ _ h1 (RQStep.submit rqS1 "b.blend" "outB" opts0 "b" (by decide))
  have h3 : RQReachable true rqS3 :=
    .step _ _ h2 (RQStep.submit rqS2 "c.blend" "outC" opts0 "c" (by decide))
  have h4 : RQReachable true rqS4 :=
    .step _ _ h3 (RQStep.enter rqS3 rfl rfl)
  have h5 : RQReachable true rqS5 :=
    .step _ _ h4 (RQStep.launch rqS4 [] [] itemA 1 rfl rfl rfl)
  have h6 : RQReachable true rqS6 :=
    .step _ _ h5 (RQStep.stop rqS5 2 rfl)
  have h7 : RQReachable true rqS7 :=
    .step _ _ h6 (RQStep.start rqS6)
  have h8 : RQReachable true rqS8 :=
    .step _ _ h7 (RQStep.enter rqS7 rfl rfl)
  have h9 : RQReachable true rqS9 :=
    .step _ _ h8 (RQStep.launch rqS8 [] [.awaiting "a"] itemB 4 rfl rfl rfl)
  have h10 : RQReachable true rqS10 :=
    .step _ _ h9 (RQStep.settleErr rqS9 [.awaiting "b"] [] "a" msgA 5 rfl)
  exact .step _ _ h10 (RQStep.launch rqS10 [.awaiting "b"] [] itemC 6 rfl rfl rfl)

def srvJA : SJob := freshSJob "sa" 0

def srvS1 : SrvState := { jobs := [srvJA], queue := ["sa"], active := [] }

def srvS2 : SrvState :=
  { jobs := [srvMarkRendering 1 srvJA], queue := [], active := ["sa"] }

theorem srvS2_reachable : SrvReachable srvS2 := by
  have h0 : SrvReachable srvInit := .init
  have h1 : SrvReachable srvS1 :=
    .step _ _ h0 (SrvStep.addJob srvInit "sa" 0 (by decide))
  exact .step _ _ h1 (SrvStep.launch srvS1 "sa" [] 1 srvJA rfl (by decide) rfl)

/-- Claim C1, amended: the server variant (`RenderJobManager`,
`maxConcurrentJobs = 2`) never has more than 2 jobs in the `rendering`
state, for every event sequence.  The RenderQueue variant keeps its count
of `rendering` items at most 1 only under the stop-free discipline
(`stopQueue`/`clearQueue` never invoked): these two entry points reset the
`isProcessing` flag while a `processQueue` invocation is still suspended,
after which a second invocation can run concurrently with the resumed one
(see the counterexample). -/
theorem claim_C1 :
    (∀ s : RQState, RQReachable false s → countRendering s.queue ≤ 1) ∧
    (∀ s : SrvState, SrvReachable s → srvCountRendering s.jobs ≤ maxConcurrentJobs) :=
  ⟨rqCount_le_one, srvCount_le⟩

/-- Witness for C1: a reachable RenderQueue state with one rendering item
and a reachable server state with one rendering job satisfy the bounds. -/
theorem claim_C1_witness :
    countRendering rqS5.queue ≤ 1 ∧ srvCountRendering srvS2.jobs ≤ maxConcurrentJobs := by
  constructor
  · apply claim_C1.1 rqS5
    have h0 : RQReachable false rqInit := .init
    have h1 : RQReachable false rqS1 :=
      .step _ _ h0 (RQStep.submit rqInit "a.blend" "outA" opts0 "a" (by decide))
    have h2 : RQReachable false rqS2 :=
      .step _ _ h1 (RQStep.submit rqS1 "b.blend" "outB" opts0 "b" (by decide))
    have h3 : RQReachable false rqS3 :=
      .step _ _ h2 (RQStep.submit rqS2 "c.blend" "outC" opts0 "c" (by decide))
    have h4 : RQReachable false rqS4 :=
      .step _ _ h3 (RQStep.enter rqS3 rfl rfl)
    exact .step _ _ h4 (RQStep.launch rqS4 [] [] itemA 1 rfl rfl rfl)
  · exact claim_C1.2 srvS2 srvS2_reachable

/-- Counterexample to C1 as stated: with `stopQueue` and `startQueue`
interleaved into an active render, the RenderQueue variant reaches a state
with two items in the `rendering` state, exceeding its concurrency limit
of 1. -/
theorem claim_C1_counterexample :
    RQReachable true rqBad ∧ countRendering rqBad.queue = 2 :=
  ⟨rqBad_reachable, by decide⟩

/-! ## Claims C2 and C3: the progress parser -/

def rjob1 : RenderJob :=
  { id := "j1"
    blendFile := "a.blend"
    outputPath := "out"
    startFrame := 1
    endFrame := 10
    status := .running
    progress := some 0
    process := true
    createdAt := 0
    completedAt := none
    error := none }

/-- Claim C2, amended: on a chunk carrying a `Fra:` marker for frame `f`,
`BlenderService.parseBlenderOutput` reports
`round(100 * f / totalFramesInRange)` — not the claimed
`round(100 * (f - rangeStart + 1) / totalFramesInRange)` — and applies no
clamping; the two formulas agree when `rangeStart = 1`, so the scenario
`frameRange = (1, 10)`, marker frame 5 still yields 50.  The part_001
variant instead computes `round(100 * (f - rangeStart) / totalFrames)`,
which yields 40 on that scenario. -/
theorem claim_C2 :
    (∀ (out : String) (f : ℕ) (cf tf : ℤ),
      scanNumAfter fraPat out.toList = some f → tf ≠ 0 →
      (parseBlenderOutput out cf tf).percentage =
        some ((jsRound ((f : ℚ) / (tf : ℚ) * 100) : ℤ) : ℚ)) ∧
    (parseBlenderOutput "Fra:5" 1 10).percentage = some 50 ∧
    (part001Stdout "Fra:5" rjob1).progress = some 40 := by
  refine ⟨?_, ?_, ?_⟩
  · intro out f cf tf hscan htf
    unfold parseBlenderOutput
    rw [hscan]
    have htf' : (tf : ℚ) ≠ 0 := Int.cast_ne_zero.mpr htf
    simp [jsDiv, htf']
  · have h : scanNumAfter fraPat "Fra:5".toList = some 5 := by decide
    unfold parseBlenderOutput
    rw [h]
    norm_num [jsDiv, jsRound]
  · have h : scanNumAfter fraPat "Fra:5".toList = some 5 := by decide
    unfold part001Stdout
    rw [h]
    norm_num [rjob1, jsDiv, jsRound]

/-- Witness for C2: the general formula applied at the chunk `Fra:7` with
range total 10. -/
theorem claim_C2_witness :
    (parseBlenderOutput "Fra:7" 1 10).percentage =
      some ((jsRound (((7 : ℕ) : ℚ) / ((10 : ℤ) : ℚ) * 100) : ℤ) : ℚ) :=
  claim_C2.1 "Fra:7" 7 1 10 (by decide) (by norm_num)

/-- Counterexample to C2 as stated: the part_001 handler reports 40 (not
the claimed 50) for a frame-5 marker on range (1, 10), and the
BlenderService parser reports 200 (unclamped) for a frame-20 marker on
range (1, 10). -/
theorem claim_C2_counterexample :
    ((part001Stdout "Fra:5" rjob1).progress = some 40 ∧ (40 : ℚ) ≠ 50) ∧
    ((parseBlenderOutput "Fra:20" 1 10).percentage = some 200 ∧
      ¬(200 : ℚ) ≤ 100) := by
  refine ⟨⟨?_, by norm_num⟩, ⟨?_, by norm_num⟩⟩
  · have h : scanNumAfter fraPat "Fra:5".toList = some 5 := by decide
    unfold part001Stdout
    rw [h]
    norm_num [rjob1, jsDiv, jsRound]
  · have h : scanNumAfter fraPat "Fra:20".toList = some 20 := by decide
    unfold parseBlenderOutput
    rw [h]
    norm_num [jsDiv, jsRound]

def itemR : QueueItem := { itemA with status := .rendering }

/-- Claim C3, amended: in the RenderQueue/BlenderService variant an
`Error:`/`EXCEPTION` marker (in a chunk without `Saved:`) produces a parse
status of `error`, and the `onProgress` callback then does set the job's
status to the terminal `error` state with the advisory message — the
job's fate is not left to the exit code.  Only in the part_001 variant
does error text never change the job status (its stdout handler only
updates progress and its stderr handler only logs), the terminal outcome
being decided by the exit code alone. -/
theorem claim_C3 :
    (∀ (out : String) (cf tf : ℤ) (item : QueueItem) (t : ℕ),
      containsPat errorPat out.toList = true →
      containsPat savedPat out.toList = false →
      (applyProgress (parseBlenderOutput out cf tf) t item).status = .error) ∧
    (∀ (out : String) (job : RenderJob), (part001Stdout out job).status = job.status) := by
  constructor
  · intro out cf tf item t herr hsaved
    have hst : (parseBlenderOutput out cf tf).status = PStatus.error := by
      have h1 : containsPat savedPat out.data = false := hsaved
      have h2 : containsPat errorPat out.data = true := herr
      unfold parseBlenderOutput
      simp [h1, h2]
    unfold applyProgress
    rw [hst]
  · intro out job
    unfold part001Stdout
    cases hscan : scanNumAfter fraPat out.toList with
    | none => rfl
    | some n => rfl

/-- Witness for C3: an `Error:` chunk flips a rendering item to `error`;
a `Fra:` chunk leaves the part_001 job status unchanged. -/
theorem claim_C3_witness :
    (applyProgress (parseBlenderOutput "Error: x" 1 10) 3 itemR).status = .error ∧
    (part001Stdout "Fra:5" rjob1).status = rjob1.status :=
  ⟨claim_C3.1 "Error: x" 1 10 itemR 3 (by decide) (by decide),
   claim_C3.2 "Fra:5" rjob1⟩

/-- Counterexample to C3 as stated: a chunk containing only an error
marker moves a `rendering` item to the terminal `error` state through the
progress path alone, before any process exit. -/
theorem claim_C3_counterexample :
    itemR.status = QStatus.rendering ∧
    (applyProgress (parseBlenderOutput "Error: boom" 1 10) 7 itemR).status =
      QStatus.error := by
  constructor
  · rfl
  · have hst : (parseBlenderOutput "Error: boom" 1 10).status = PStatus.error := by
      decide
    unfold applyProgress
    rw [hst]

/-! ## Claims C4 and C5: cancellation and process exit -/

def itemCan : QueueItem := { itemA with status := .cancelled }

/-- Claim C4, amended: progress updates arriving after cancellation are
applied, not ignored.  In the RenderQueue variant the `onProgress`
callback unconditionally overwrites the progress fields of a cancelled
item (a `rendering`-status update leaves the status itself untouched)
and a late `completed` update resurrects the item to `Completed` with
progress 100.  In the part_001 variant a close with exit code 0 after
cancellation likewise sets `completed`, while a nonzero or signal exit
leaves the job `cancelled`. -/
theorem claim_C4 :
    (∀ (p : RenderProgress) (item : QueueItem) (t : ℕ), p.status = .completed →
      (applyProgress p t item).status = .completed ∧
      (applyProgress p t item).progress = some 100) ∧
    (∀ (p : RenderProgress) (item : QueueItem) (t : ℕ), p.status = .rendering →
      (applyProgress p t item).status = item.status ∧
      (applyProgress p t item).progress = p.percentage ∧
      (applyProgress p t item).currentFrame = some p.frame) ∧
    (∀ (job : RenderJob) (t : ℕ), job.status = .cancelled →
      (part001Close (some 0) t job).status = .completed) ∧
    (∀ (job : RenderJob) (t : ℕ) (c : Option ℤ), job.status = .cancelled →
      c ≠ some 0 → (part001Close c t job).status = .cancelled) := by
  refine ⟨?_, ?_, ?_, ?_⟩
  · intro p item t hp
    unfold applyProgress
    rw [hp]
    exact ⟨rfl, rfl⟩
  · intro p item t hp
    unfold applyProgress
    rw [hp]
    exact ⟨rfl, rfl, rfl⟩
  · intro job t hj
    unfold part001Close
    rw [if_pos rfl]
  · intro job t c hj hc
    unfold part001Close
    rw [if_neg hc, if_neg (by simp [hj])]
    exact hj

/-- Witness for C4: a cancelled item receives a late `Saved:`-completed
update and becomes `completed`; a cancelled part_001 job survives a
signal exit but is resurrected by exit code 0. -/
theorem claim_C4_witness :
    ((applyProgress (blenderCloseOk 10) 9 itemCan).status = .completed ∧
      (applyProgress (blenderCloseOk 10) 9 itemCan).progress = some 100) ∧
    ((applyProgress (parseBlenderOutput "Fra:5" 1 10) 9 itemCan).status =
        itemCan.status ∧
      (applyProgress (parseBlenderOutput "Fra:5" 1 10) 9 itemCan).progress =
        (parseBlenderOutput "Fra:5" 1 10).percentage ∧
      (applyProgress (parseBlenderOutput "Fra:5" 1 10) 9 itemCan).currentFrame =
        some (parseBlenderOutput "Fra:5" 1 10).frame) ∧
    (part001Close (some 0) 7 { rjob1 with status := .cancelled }).status = .completed ∧
    (part001Close none 7 { rjob1 with status := .cancelled }).status = .cancelled :=
  ⟨claim_C4.1 (blenderCloseOk 10) itemCan 9 rfl,
   claim_C4.2.1 (parseBlenderOutput "Fra:5" 1 10) itemCan 9 (by decide),
   claim_C4.2.2.1 { rjob1 with status := .cancelled } 7 rfl,
   claim_C4.2.2.2 { rjob1 with status := .cancelled } 7 none rfl (by simp)⟩

/-- Counterexample to C4 as stated: a late `Saved:` (completed) update
applied to a cancelled item sets its status to `completed` — the
cancelled state is not sticky against forwarded progress updates. -/
theorem claim_C4_counterexample :
    itemCan.status = QStatus.cancelled ∧
    (applyProgress (parseBlenderOutput "Saved: img.png" 3 10) 9 itemCan).status =
      QStatus.completed ∧
    (applyProgress (parseBlenderOutput "Saved: img.png" 3 10) 9 itemCan).progress =
      some 100 := by
  have hst : (parseBlenderOutput "Saved: img.png" 3 10).status = PStatus.completed := by
    decide
  refine ⟨rfl, ?_, ?_⟩
  · unfold applyProgress
    rw [hst]
  · unfold applyProgress
    rw [hst]

/-- Claim C5, amended: exit code 0 yields `Completed` with progress forced
to 100 and the completion timestamp set, in both variants.  A nonzero exit
(when the job is not cancelled) yields the failed state; the errorDetail
contains the captured error stream and the exit code in the
BlenderService/RenderQueue variant, but only the exit code in the
part_001 variant, whose stderr handler merely logs and captures nothing. -/
theorem claim_C5 :
    (∀ (job : RenderJob) (t : ℕ),
      part001Close (some 0) t job =
        { job with status := .completed, progress := some 100,
                   completedAt := some t, process := false }) ∧
    (∀ (item : QueueItem) (t : ℕ) (tf : ℤ),
      (applyProgress (blenderCloseOk tf) t item).status = .completed ∧
      (applyProgress (blenderCloseOk tf) t item).progress = some 100 ∧
      (applyProgress (blenderCloseOk tf) t item).endTime = some t) ∧
    (∀ (job : RenderJob) (t : ℕ) (c : ℤ), job.status ≠ .cancelled → c ≠ 0 →
      (part001Close (some c) t job).status = .failed ∧
      (part001Close (some c) t job).error =
        some ("Render process exited with code " ++ toString c)) ∧
    (∀ (c : ℤ) (errOut : String) (item : QueueItem) (t : ℕ),
      (applyCatch (blenderFailMsg c errOut) t item).status = .error ∧
      (applyCatch (blenderFailMsg c errOut) t item).error =
        some (blenderFailMsg c errOut) ∧
      containsPat errOut.toList (blenderFailMsg c errOut).toList = true) := by
  refine ⟨?_, ?_, ?_, ?_⟩
  · intro job t
    unfold part001Close
    rw [if_pos rfl]
  · intro item t tf
    exact ⟨rfl, rfl, rfl⟩
  · intro job t c hst hc
    have hne : ¬(some c = some (0 : ℤ)) := by simp [hc]
    unfold part001Close
    rw [if_neg hne, if_pos hst]
    exact ⟨rfl, rfl⟩
  · intro c errOut item t
    refine ⟨rfl, rfl, ?_⟩
    have hdata : (blenderFailMsg c errOut).toList =
        ("Blender process failed with code " ++ toString c ++ ": ").toList ++
          errOut.toList := by
      simp [blenderFailMsg, String.toList, String.data_append]
    rw [hdata]
    exact containsPat_append_right _ _

/-- Witness for C5 at concrete inputs: exit 0 on `rjob1`; the rendering
item on the ok close update; exit 1 on `rjob1`; a captured stderr of
`boom` with exit code 1. -/
theorem claim_C5_witness :
    (part001Close (some 0) 7 rjob1 =
      { rjob1 with status := .completed, progress := some 100,
                   completedAt := some 7, process := false }) ∧
    ((applyProgress (blenderCloseOk 10) 9 itemR).status = .completed ∧
      (applyProgress (blenderCloseOk 10) 9 itemR).progress = some 100 ∧
      (applyProgress (blenderCloseOk 10) 9 itemR).endTime = some 9) ∧
    ((part001Close (some 1) 7 rjob1).status = .failed ∧
      (part001Close (some 1) 7 rjob1).error =
        some ("Render process exited with code " ++ toString (1 : ℤ))) ∧
    ((applyCatch (blenderFailMsg 1 "boom") 7 itemA).status = .error ∧
      (applyCatch (blenderFailMsg 1 "boom") 7 itemA).error =
        some (blenderFailMsg 1 "boom") ∧
      containsPat "boom".toList (blenderFailMsg 1 "boom").toList = true) :=
  ⟨claim_C5.1 rjob1 7,
   claim_C5.2.1 itemR 9 10,
   claim_C5.2.2.1 rjob1 7 1 (by decide) (by decide),
   claim_C5.2.2.2 1 "boom" itemA 7⟩

/-- Counterexample to C5 as stated: in the part_001 variant, a process
that exits with code 1 while stderr carried `boom` gets an errorDetail
built only from the exit code — the captured error stream text does not
occur in it (the stderr handler at part_001 lines 341-343 discards it). -/
theorem claim_C5_counterexample :
    (part001Close (some 1) 7 rjob1).error =
      some "Render process exited with code 1" ∧
    containsPat "boom".toList "Render process exited with code 1".toList = false := by
  constructor
  · decide
  · decide

/-! ## Claims C6 and C7: retry and manual reordering -/

theorem find?_append_of_none {α : Type} (p : α → Bool) :
    ∀ (l₁ l₂ : List α), l₁.find? p = none → (l₁ ++ l₂).find? p = l₂.find? p := by
  intro l₁
  induction l₁ with
  | nil => intro l₂ _; rfl
  | cons x xs ih =>
    intro l₂ h
    rw [List.find?_cons] at h
    cases hx : p x with
    | true => simp [hx] at h
    | false =>
      simp only [hx] at h
      rw [List.cons_append, List.find?_cons]
      simp only [hx]
      exact ih l₂ h

theorem find?_updateFirst_pos {α : Type} (p : α → Bool) (f : α → α) (l : List α)
    (x : α) (h : l.find? p = some x) (hf : p (f x) = true) :
    (updateFirst p f l).find? p = some (f x) := by
  obtain ⟨l₁, l₂, hsplit, hfalse, hupd⟩ := find?_eq_some_split p f l x h
  rw [hupd]
  rw [find?_append_of_none p l₁ _ (List.find?_eq_none.mpr fun a ha => by
    simp [hfalse a ha])]
  rw [List.find?_cons]
  simp [hf]

def resetItem (i : QueueItem) : QueueItem :=
  { i with status := .pending, progress := some 0, error := none,
           startTime := none, endTime := none }

theorem retryItem_pos_eq (id : String) (q : List QueueItem) (item : QueueItem)
    (hfind : q.find? (fun i => i.id == id) = some item)
    (hst : item.status = .error ∨ item.status = .cancelled) :
    retryItem id q = (true, updateFirst (fun i => i.id == id) resetItem q) := by
  unfold retryItem
  rw [hfind]
  dsimp only
  rw [if_pos hst]
  rfl

/-- Claim C6, confirmed: `retryItem` returns `false` and leaves the queue
unchanged when the id is absent or the item is not in `error`/`cancelled`;
on a valid retry it returns `true` and the item becomes `pending` with
progress 0, cleared error and cleared timestamps, its id and
configuration untouched. -/
theorem claim_C6 :
    (∀ (id : String) (q : List QueueItem),
      q.find? (fun i => i.id == id) = none → retryItem id q = (false, q)) ∧
    (∀ (id : String) (q : List QueueItem) (item : QueueItem),
      q.find? (fun i => i.id == id) = some item →
      item.status ≠ .error → item.status ≠ .cancelled →
      retryItem id q = (false, q)) ∧
    (∀ (id : String) (q : List QueueItem) (item : QueueItem),
      q.find? (fun i => i.id == id) = some item →
      (item.status = .error ∨ item.status = .cancelled) →
      (retryItem id q).1 = true ∧
      (retryItem id q).2.find? (fun i => i.id == id) = some (resetItem item) ∧
      (resetItem item).status = .pending ∧
      (resetItem item).progress = some 0 ∧
      (resetItem item).error = none ∧
      (resetItem item).startTime = none ∧
      (resetItem item).endTime = none ∧
      (resetItem item).id = item.id ∧
      (resetItem item).blendFile = item.blendFile ∧
      (resetItem item).outputPath = item.outputPath ∧
      (resetItem item).options = item.options) := by
  refine ⟨?_, ?_, ?_⟩
  · intro id q hnone
    unfold retryItem
    rw [hnone]
  · intro id q item hfind h1 h2
    unfold retryItem
    rw [hfind]
    dsimp only
    rw [if_neg (by simp [h1, h2])]
  · intro id q item hfind hst
    rw [retryItem_pos_eq id q item hfind hst]
    have hp : (item.id == id) = true := by
      have := List.find?_some hfind
      simpa using this
    refine ⟨rfl, ?_, rfl, rfl, rfl, rfl, rfl, rfl, rfl, rfl, rfl⟩
    exact find?_updateFirst_pos _ resetItem q item hfind hp

def itemErr : QueueItem :=
  { itemA with status := .error, error := some "x", startTime := some 1,
               endTime := some 2, progress := some 30 }

/-- Witness for C6: an absent id, a pending item and a failed item. -/
theorem claim_C6_witness :
    retryItem "zz" [itemErr] = (false, [itemErr]) ∧
    retryItem "b" [itemErr, itemB] = (false, [itemErr, itemB]) ∧
    (retryItem "a" [itemErr]).1 = true ∧
    (retryItem "a" [itemErr]).2.find? (fun i => i.id == "a") =
      some (resetItem itemErr) :=
  ⟨claim_C6.1 "zz" [itemErr] (by decide),
   claim_C6.2.1 "b" [itemErr, itemB] itemB (by decide) (by decide) (by decide),
   (claim_C6.2.2 "a" [itemErr] itemErr (by decide) (Or.inl (by decide))).1,
   (claim_C6.2.2 "a" [itemErr] itemErr (by decide) (Or.inl (by decide))).2.1⟩

/-- Claim C7, confirmed: `moveItemUp` on an absent id or on the first
element, and `moveItemDown` on an absent id or on the last element,
return `false` and leave the queue unchanged; on an interior position they
swap the item with its neighbour and return `true`. -/
theorem claim_C7 :
    (∀ (id : String) (q : List QueueItem),
      q.findIdx? (fun i => i.id == id) = none →
      moveItemUp id q = (false, q) ∧ moveItemDown id q = (false, q)) ∧
    (∀ (id : String) (q : List QueueItem),
      q.findIdx? (fun i => i.id == id) = some 0 → moveItemUp id q = (false, q)) ∧
    (∀ (id : String) (q : List QueueItem) (n : ℕ),
      q.findIdx? (fun i => i.id == id) = some n → q.length - 1 ≤ n →
      moveItemDown id q = (false, q)) ∧
    (∀ (id : String) (q : List QueueItem) (n : ℕ),
      q.findIdx? (fun i => i.id == id) = some (n + 1) →
      moveItemUp id q = (true, swapAdj n q)) ∧
    (∀ (id : String) (q : List QueueItem) (n : ℕ),
      q.findIdx? (fun i => i.id == id) = some n → n < q.length - 1 →
      moveItemDown id q = (true, swapAdj n q)) := by
  refine ⟨?_, ?_, ?_, ?_, ?_⟩
  · intro id q h
    constructor
    · unfold moveItemUp
      rw [h]
    · unfold moveItemDown
      rw [h]
  · intro id q h
    unfold moveItemUp
    rw [h]
  · intro id q n h hn
    unfold moveItemDown
    rw [h]
    dsimp only
    rw [if_pos hn]
  · intro id q n h
    unfold moveItemUp
    rw [h]
  · intro id q n h hn
    unfold moveItemDown
    rw [h]
    dsimp only
    rw [if_neg (by omega)]

/-- Witness for C7 on the two-element queue `[itemA, itemB]`: moveUp on
the head and moveDown on the last are no-ops, an absent id is a no-op,
and the interior moves swap. -/
theorem claim_C7_witness :
    (moveItemUp "zz" [itemA, itemB] = (false, [itemA, itemB]) ∧
      moveItemDown "zz" [itemA, itemB] = (false, [itemA, itemB])) ∧
    moveItemUp "a" [itemA, itemB] = (false, [itemA, itemB]) ∧
    moveItemDown "b" [itemA, itemB] = (false, [itemA, itemB]) ∧
    moveItemUp "b" [itemA, itemB] = (true, swapAdj 0 [itemA, itemB]) ∧
    moveItemDown "a" [itemA, itemB] = (true, swapAdj 0 [itemA, itemB]) :=
  ⟨claim_C7.1 "zz" [itemA, itemB] (by decide),
   claim_C7.2.1 "a" [itemA, itemB] (by decide),
   claim_C7.2.2.1 "b" [itemA, itemB] 1 (by decide) (by decide),
   claim_C7.2.2.2.1 "b" [itemA, itemB] 0 (by decide),
   claim_C7.2.2.2.2 "a" [itemA, itemB] 0 (by decide) (by decide)⟩

/-! ## Claim C8: cancelling a queued job -/

def srvQjob : SJob := freshSJob "q1" 0

def srvQ1 : SrvState := { jobs := [srvQjob], queue := ["q1"], active := [] }

def srvQjobC : SJob := { srvQjob with status := .cancelled }

def srvQ2 : SrvState := { jobs := [srvQjobC], queue := [], active := [] }

/-- Claim C8, amended: in the server variant, `cancelJob` on a `queued`
job returns `true`, marks the job `cancelled` and splices it out of the
queue; on any other job (running or terminal) it returns `false` and
changes nothing; and a job once cancelled never has status `rendering` in
any subsequent reachable state, so no process is ever spawned for it.  In
the part_001 variant the `cancel-job` handler only acts on `running` jobs
with a live process: a `pending` job is left untouched (see the
counterexample). -/
theorem claim_C8 :
    (∀ (s : SrvState) (id : String) (j : SJob),
      s.jobs.find? (fun j' => j'.id == id) = some j → j.status = .queued →
      (srvCancelJob id s).1 = true ∧
      (∃ j', (srvCancelJob id s).2.jobs.find? (fun j' => j'.id == id) = some j' ∧
        j'.status = .cancelled) ∧
      (srvCancelJob id s).2.queue = s.queue.erase id ∧
      (srvCancelJob id s).2.active = s.active) ∧
    (∀ (s : SrvState) (id : String) (j : SJob),
      s.jobs.find? (fun j' => j'.id == id) = some j → j.status ≠ .queued →
      srvCancelJob id s = (false, s)) ∧
    (∀ (s : SrvState) (id : String),
      s.jobs.find? (fun j' => j'.id == id) = none → srvCancelJob id s = (false, s)) ∧
    (∀ (s s' : SrvState) (id : String), SrvReachable s → SrvCancelled id s →
      Relation.ReflTransGen SrvStep s s' →
      ∀ j ∈ s'.jobs, j.id = id → j.status = .cancelled) := by
  refine ⟨?_, ?_, ?_, ?_⟩
  · intro s id j hfind hst
    have hp : (j.id == id) = true := by
      have := List.find?_some hfind
      simpa using this
    unfold srvCancelJob
    rw [hfind]
    dsimp only
    rw [if_pos hst]
    refine ⟨rfl, ?_, rfl, rfl⟩
    refine ⟨{ j with status := SStatus.cancelled }, ?_, rfl⟩
    exact find?_updateFirst_pos _ _ s.jobs j hfind hp
  · intro s id j hfind hst
    unfold srvCancelJob
    rw [hfind]
    dsimp only
    rw [if_neg hst]
  · intro s id hfind
    unfold srvCancelJob
    rw [hfind]
  · intro s s' id hreach hc hstar
    have hinv := srvReachable_inv s hreach
    exact (srvSteps_cancelled s s' hstar hinv id hc).2

/-- Witness for C8: cancelling the queued job `q1` succeeds and empties
the queue; cancelling a rendering job is refused; an absent id is
refused; and after cancellation the job record stays `cancelled` along
the (empty) continuation of the trace. -/
theorem claim_C8_witness :
    (srvCancelJob "q1" srvQ1).1 = true ∧
    (srvCancelJob "q1" srvQ1).2.queue = (["q1"].erase "q1") ∧
    srvCancelJob "sa" srvS2 = (false, srvS2) ∧
    srvCancelJob "zz" srvS2 = (false, srvS2) ∧
    srvQjobC.status = SStatus.cancelled := by
  have h0 : SrvReachable srvInit := .init
  have h1 : SrvReachable srvQ1 :=
    .step _ _ h0 (SrvStep.addJob srvInit "q1" 0 (by decide))
  have h2 : SrvReachable srvQ2 :=
    .step _ _ h1 (SrvStep.cancel srvQ1 "q1")
  have hcanc : SrvCancelled "q1" srvQ2 :=
    ⟨⟨srvQjobC, List.mem_cons_self _ _, rfl⟩, by decide⟩
  refine ⟨(claim_C8.1 srvQ1 "q1" srvQjob (by decide) (by decide)).1,
    (claim_C8.1 srvQ1 "q1" srvQjob (by decide) (by decide)).2.2.1,
    claim_C8.2.1 srvS2 "sa" (srvMarkRendering 1 srvJA) (by decide) (by decide),
    claim_C8.2.2.1 srvS2 "zz" (by decide),
    claim_C8.2.2.2 srvQ2 srvQ2 "q1" h2 hcanc Relation.ReflTransGen.refl
      srvQjobC (List.mem_cons_self _ _) rfl⟩

def rjobPend : RenderJob := { rjob1 with status := .pending, process := false }

/-- Counterexample to C8 as stated: in the part_001 variant, cancelling a
`pending` job is a no-op — the job is neither marked `Cancelled` nor
removed, so it will later be rendered normally. -/
theorem claim_C8_counterexample :
    part001CancelJob "j1" [rjobPend] = [rjobPend] ∧
    rjobPend.status = RStatus.pending := by
  constructor
  · decide
  · rfl

/-! ## Claims C9 and C10 -/

def rjobDeg : RenderJob := { rjob1 with startFrame := 2, endFrame := 1 }

/-- Claim C9, amended: the progress computations are NOT guarded against a
zero-length frame range.  With `totalFrames = 0` the JavaScript division
produces a non-finite value (Infinity or NaN, modelled as `none`): the
BlenderService parser reports a non-finite percentage and the part_001
handler stores a non-finite progress — neither reports 100. -/
theorem claim_C9 :
    (∀ (out : String) (cf : ℤ), (parseBlenderOutput out cf 0).percentage = none) ∧
    (∀ (out : String) (f : ℕ) (job : RenderJob),
      scanNumAfter fraPat out.toList = some f →
      job.endFrame = job.startFrame - 1 →
      (part001Stdout out job).progress = none) := by
  constructor
  · intro out cf
    simp [parseBlenderOutput, jsDiv]
  · intro out f job hscan hdeg
    unfold part001Stdout
    rw [hscan]
    dsimp only
    have h0 : ((job.endFrame - job.startFrame + 1 : ℤ) : ℚ) = 0 := by
      rw [hdeg]
      push_cast
      ring
    simp [jsDiv, h0]

/-- Witness for C9: frame marker 5 on a zero-length range. -/
theorem claim_C9_witness :
    (parseBlenderOutput "Fra:5" 1 0).percentage = none ∧
    (part001Stdout "Fra:5" rjobDeg).progress = none :=
  ⟨claim_C9.1 "Fra:5" 1, claim_C9.2 "Fra:5" 5 rjobDeg (by decide) (by decide)⟩

/-- Counterexample to C9 as stated: on the degenerate range the parser
yields a non-finite percentage, not the claimed immediate 100. -/
theorem claim_C9_counterexample :
    (parseBlenderOutput "Fra:5" 1 0).percentage = none ∧
    (parseBlenderOutput "Fra:5" 1 0).percentage ≠ some 100 := by
  have h : (parseBlenderOutput "Fra:5" 1 0).percentage = none := by
    simp [parseBlenderOutput, jsDiv]
  exact ⟨h, by rw [h]; simp⟩

/-- Claim C10, confirmed: every queue item's status is exactly one of the
five recognised values, so `getQueueStats` partitions the queue: `total`
is the sum of `pending`, `rendering`, `completed`, `failed` and
`cancelled`. -/
theorem claim_C10 :
    ∀ q : List QueueItem,
      (getQueueStats q).total =
        (getQueueStats q).pending + (getQueueStats q).rendering +
        (getQueueStats q).completed + (getQueueStats q).failed +
        (getQueueStats q).cancelled := by
  intro q
  induction q with
  | nil => rfl
  | cons x t ih =>
    simp only [getQueueStats, List.length_cons, List.filter_cons] at ih ⊢
    cases hx : x.status <;> simp [hx] <;> omega
